import Mathlib

/-!
Verification of the sftp-sync mirroring core (src/main.rs).

This file gives a shallow embedding of the synchronization algorithm:

* `find_paths` / `walk_entries` embed `SftpSync::find_paths` (main.rs 88-141):
  the recursive remote-tree walk that mirrors directories locally and collects
  the work list of `(remote_path, local_path)` transfer pairs.
* `binary_search_loop` embeds `slice::binary_search_by` as used on the sorted
  exclusion list (main.rs 105-112), and `new_exclude` embeds the exclusion-list
  construction in `SftpSync::new` (main.rs 55-60).
* `copy_file` / `copy_loop` embed `SftpSync::copy_file` (main.rs 69-86):
  chunked streaming with a 128 KiB buffer.
* `execute_transfers` embeds the transfer phase (main.rs 155-159): one copy
  attempt per pair, each failure caught and reported individually.
* `sync_local_directory` embeds `SftpSync::sync_local_directory`
  (main.rs 143-161).

Modelling conventions:
* Paths are lists of components (`FsPath`); `fileName` models
  `Path::file_name().and_then(|p| p.to_str())`, which fails exactly when no
  final component is extractable (modelled by the empty path).
* The remote tree is the inductive `RemoteDir`: a directory either fails to
  list (`RemoteDir.fail`, an `sftp.readdir` error) or yields its entries, each
  carrying the full remote path and stat that `readdir` reports plus, for
  directories, the subtree reached by the recursive call.
* The local filesystem is a pair of a directory set and a file map
  (path to byte content); `std::fs::create_dir_all` is modelled by `insertDir`
  (ancestors of each visited directory are created by the enclosing recursive
  calls before descent, the root having been checked to exist).
* Fallible host operations are driven by an `Env` of failure oracles, one per
  `?`-site in the source: local directory creation, local `File::open` +
  `metadata` during the staleness check, local `File::create`, remote
  `Sftp::open` (which on success yields the remote byte stream), and read /
  write failures at a given loop iteration of the copy loop.
* The copy loop's `read` is modelled as returning `min BUFFER_SIZE remaining`
  bytes, the deterministic full-read behaviour; the loop's observable actions
  are recorded as the trace of `bytes_read` values it sees.
* The `rayon` parallel `for_each` of the transfer phase is modelled as a
  left-to-right fold; the spec guarantees no ordering contract and every
  item is independent, which the theorems below make explicit.
-/

abbrev FsPath := List String

structure FileStat where
  isDir : Bool
  size : Option Nat
deriving DecidableEq, Repr

/-- A remote directory as seen through `sftp.readdir`: either the listing
fails, or it returns entries `(path, stat)`; an entry that is itself a
directory carries the subtree the walker would reach by recursing on `path`.
For non-directory entries the `RemoteDir` component is irrelevant (the walker
never descends into them). -/
inductive RemoteDir where
  | fail : RemoteDir
  | ok : List (FsPath × FileStat × RemoteDir) → RemoteDir

structure LocalFS where
  dirs : List FsPath
  files : List (FsPath × List Nat)
deriving DecidableEq, Repr

/-- The walker state: the local filesystem it mutates plus the
`result: &mut Vec<(PathBuf, PathBuf)>` accumulator. -/
structure WalkState where
  fs : LocalFS
  out : List (FsPath × FsPath)
deriving DecidableEq, Repr

inductive SyncError where
  | localRootMissing (p : FsPath)
  | createDirFailed (p : FsPath)
  | readdirFailed (p : FsPath)
  | localOpenFailed (p : FsPath)
deriving DecidableEq, Repr

inductive CopyErr where
  | remoteOpenErr
  | localCreateErr
  | readErr
  | writeErr
deriving DecidableEq, Repr

/-- What the transfer phase reports for one work-list item: the pair's two
paths and, if the copy failed, the error (main.rs 156-158). -/
structure CopyOutcome where
  remotePath : FsPath
  localPath : FsPath
  error : Option CopyErr
deriving DecidableEq, Repr

/-- Failure oracles for the fallible host operations, one per `?`-site of the
source, plus the remote file contents served by `Sftp::open`. -/
structure Env where
  createDirFails : FsPath → Bool
  openLocalFails : FsPath → Bool
  createFileFails : FsPath → Bool
  remoteOpen : FsPath → Except Unit (List Nat)
  readFailAt : FsPath → Option Nat
  writeFailAt : FsPath → Option Nat

def lookupFile : List (FsPath × List Nat) → FsPath → Option (List Nat)
  | [], _ => none
  | (q, c) :: rest, p => if q = p then some c else lookupFile rest p

def setFile : List (FsPath × List Nat) → FsPath → List Nat → List (FsPath × List Nat)
  | [], p, c => [(p, c)]
  | (q, d) :: rest, p, c =>
    if q = p then (p, c) :: rest else (q, d) :: setFile rest p c

def insertDir (dirs : List FsPath) (p : FsPath) : List FsPath :=
  if p ∈ dirs then dirs else p :: dirs

/-- `Path::exists`: true if any local object (directory or file) is at `p`. -/
def LocalFS.existsPath (fs : LocalFS) (p : FsPath) : Bool :=
  decide (p ∈ fs.dirs) || (lookupFile fs.files p).isSome

/-- `File::open(p)` + `metadata().len()`: the byte length of the local object
at `p` (0 if no file content is recorded there). -/
def LocalFS.lengthAt (fs : LocalFS) (p : FsPath) : Nat :=
  ((lookupFile fs.files p).getD []).length

/-- `path.file_name().and_then(|p| p.to_str())` (main.rs 98). -/
def fileName (p : FsPath) : Option String := p.getLast?

/-- `e.as_str().cmp(file_name)` (main.rs 107): total lexicographic order. -/
def strCmp (a b : String) : Ordering :=
  if a < b then .lt else if a = b then .eq else .gt

/-- `slice::binary_search_by` on a sorted `Vec<String>`: the source only
consumes `is_ok()`, so the found index is returned as `some` and the
not-found insertion point as `none`. -/
def binary_search_loop (l : List String) (target : String) (left right : Nat) :
    Option Nat :=
  if _h : left < right then
    match strCmp (l.getD (left + (right - left) / 2) "") target with
    | .lt => binary_search_loop l target (left + (right - left) / 2 + 1) right
    | .eq => some (left + (right - left) / 2)
    | .gt => binary_search_loop l target left (left + (right - left) / 2)
  else
    none
termination_by right - left
decreasing_by
  all_goals omega

def binary_search (l : List String) (t : String) : Option Nat :=
  binary_search_loop l t 0 l.length

/-- `self.exclude.binary_search_by(|e| e.as_str().cmp(file_name)).is_ok()`
(main.rs 105-108). -/
def contains_name (ex : List String) (n : String) : Bool :=
  (binary_search ex n).isSome

/-- The exclusion list built in `SftpSync::new` (main.rs 55-60): the
caller-supplied list sorted once, or empty when absent. -/
def new_exclude (e : Option (List String)) : List String :=
  match e with
  | some l => List.insertionSort (· ≤ ·) l
  | none => []

def BUFFER_SIZE : Nat := 1024 * 128

/-- The read/write loop of `copy_file` (main.rs 78-84). `remaining` is the
unread part of the remote stream, `written` the bytes written locally so far,
`trace` the list of `bytes_read` values seen so far. `read_fail`/`write_fail`
give the loop iteration (counted by `k`) at which the remote read or the
local `write_all` fails, if any. -/
def copy_loop (read_fail write_fail : Option Nat) (k : Nat)
    (remaining written trace : List Nat) :
    List Nat × List Nat × Except CopyErr Unit :=
  if read_fail = some k then (written, trace, .error .readErr)
  else if _hz : (remaining.take BUFFER_SIZE).length = 0 then
    (written, trace ++ [(remaining.take BUFFER_SIZE).length], .ok ())
  else if write_fail = some k then
    (written, trace ++ [(remaining.take BUFFER_SIZE).length], .error .writeErr)
  else
    copy_loop read_fail write_fail (k + 1) (remaining.drop BUFFER_SIZE)
      (written ++ remaining.take BUFFER_SIZE)
      (trace ++ [(remaining.take BUFFER_SIZE).length])
termination_by remaining.length
decreasing_by
  have hb : 0 < BUFFER_SIZE := by norm_num [BUFFER_SIZE]
  simp only [List.length_drop, List.length_take] at *
  omega

/-- `SftpSync::copy_file` (main.rs 69-86): open the remote file, create
(truncate) the local file, stream chunks until a zero-length read. Returns
the updated local filesystem, the trace of `bytes_read` values, and the
result. On a read/write failure the partially written local file remains. -/
def copy_file (env : Env) (remote_path local_path : FsPath) (fs : LocalFS) :
    LocalFS × List Nat × Except CopyErr Unit :=
  match env.remoteOpen remote_path with
  | .error _ => (fs, [], .error .remoteOpenErr)
  | .ok content =>
    if env.createFileFails local_path then (fs, [], .error .localCreateErr)
    else
      match copy_loop (env.readFailAt remote_path) (env.writeFailAt local_path)
        0 content [] [] with
      | (written, trace, res) =>
        ({ fs with files := setFile fs.files local_path written }, trace, res)

/-- The transfer phase (main.rs 155-159): for every pair, attempt `copy_file`;
an error is caught and reported as that item's outcome. The `rayon` fan-out
carries no ordering contract; it is modelled as a left-to-right fold. -/
def execute_transfers (env : Env) (pairs : List (FsPath × FsPath))
    (fs : LocalFS) : LocalFS × List CopyOutcome :=
  match pairs with
  | [] => (fs, [])
  | (rp, lp) :: rest =>
    match copy_file env rp lp fs with
    | (fs1, _, res) =>
      match execute_transfers env rest fs1 with
      | (fs2, outs) =>
        (fs2, ⟨rp, lp, match res with | .ok _ => none | .error e => some e⟩ :: outs)

mutual

/-- `SftpSync::find_paths` (main.rs 88-141): ensure the local directory
exists, list the remote directory, and process its entries. -/
def find_paths (env : Env) (ex : List String) (t : RemoteDir)
    (local_directory remote_directory : FsPath) (s : WalkState) :
    WalkState × Except SyncError Unit :=
  if env.createDirFails local_directory then
    (s, .error (.createDirFailed local_directory))
  else
    let s : WalkState :=
      { s with fs := { s.fs with dirs := insertDir s.fs.dirs local_directory } }
    match t with
    | .fail => (s, .error (.readdirFailed remote_directory))
    | .ok entries => walk_entries env ex entries local_directory s

/-- The entry loop of `find_paths` (main.rs 97-139): name extraction,
exclusion check, recursion into subdirectories, and the staleness check for
regular files. -/
def walk_entries (env : Env) (ex : List String)
    (entries : List (FsPath × FileStat × RemoteDir))
    (local_directory : FsPath) (s : WalkState) :
    WalkState × Except SyncError Unit :=
  match entries with
  | [] => (s, .ok ())
  | (path, stat, sub) :: rest =>
    match fileName path with
    | none => walk_entries env ex rest local_directory s
    | some file_name =>
      if contains_name ex file_name then
        walk_entries env ex rest local_directory s
      else if stat.isDir then
        match find_paths env ex sub (local_directory ++ [file_name]) path s with
        | (s1, .ok _) => walk_entries env ex rest local_directory s1
        | (s1, .error e) => (s1, .error e)
      else
        match stat.size with
        | none => walk_entries env ex rest local_directory s
        | some remote_size =>
          if s.fs.existsPath (local_directory ++ [file_name]) = false then
            walk_entries env ex rest local_directory
              { s with out := s.out ++ [(path, local_directory ++ [file_name])] }
          else if env.openLocalFails (local_directory ++ [file_name]) then
            (s, .error (.localOpenFailed (local_directory ++ [file_name])))
          else if s.fs.lengthAt (local_directory ++ [file_name]) ≠ remote_size then
            walk_entries env ex rest local_directory
              { s with out := s.out ++ [(path, local_directory ++ [file_name])] }
          else
            walk_entries env ex rest local_directory s

end

/-- The result of one run: the final local filesystem, the materialized work
list, the per-item transfer outcomes (empty if the transfer phase was never
reached), and the run result. -/
structure SyncResult where
  fs : LocalFS
  workList : List (FsPath × FsPath)
  outcomes : List CopyOutcome
  result : Except SyncError Unit
deriving Repr

/-- `SftpSync::sync_local_directory` (main.rs 143-161): check the local root
exists, build the work list by traversal, then run the transfer phase. A
fatal traversal error is returned as the run result and the transfer phase
is never reached. -/
def sync_local_directory (env : Env) (ex : List String) (t : RemoteDir)
    (local_directory remote_directory : FsPath) (fs : LocalFS) : SyncResult :=
  if fs.existsPath local_directory = false then
    ⟨fs, [], [], .error (.localRootMissing local_directory)⟩
  else
    match find_paths env ex t local_directory remote_directory ⟨fs, []⟩ with
    | (s, .error e) => ⟨s.fs, s.out, [], .error e⟩
    | (s, .ok _) =>
      match execute_transfers env s.out s.fs with
      | (fs2, outs) => ⟨fs2, s.out, outs, .ok ()⟩

/-- The sizes of the successive non-empty chunks the copy loop reads from a
stream of `n` remaining bytes. -/
def chunk_sizes (n : Nat) : List Nat :=
  if n = 0 then []
  else min BUFFER_SIZE n :: chunk_sizes (n - BUFFER_SIZE)
termination_by n
decreasing_by
  have hb : 0 < BUFFER_SIZE := by norm_num [BUFFER_SIZE]
  omega

mutual

/-- The reachable regular entries of the remote tree that the walker subjects
to the staleness check: non-excluded, with extractable name and reported
size. Each is `(remote path, mirrored local path, reported size)`. -/
def mirrored_files (env : Env) (ex : List String) (t : RemoteDir)
    (local_directory : FsPath) : List (FsPath × FsPath × Nat) :=
  match t with
  | .fail => []
  | .ok entries => mirrored_files_entries env ex entries local_directory

def mirrored_files_entries (env : Env) (ex : List String)
    (entries : List (FsPath × FileStat × RemoteDir))
    (local_directory : FsPath) : List (FsPath × FsPath × Nat) :=
  match entries with
  | [] => []
  | (path, stat, sub) :: rest =>
    match fileName path with
    | none => mirrored_files_entries env ex rest local_directory
    | some file_name =>
      if contains_name ex file_name then
        mirrored_files_entries env ex rest local_directory
      else if stat.isDir then
        mirrored_files env ex sub (local_directory ++ [file_name]) ++
          mirrored_files_entries env ex rest local_directory
      else
        match stat.size with
        | none => mirrored_files_entries env ex rest local_directory
        | some remote_size =>
          (path, local_directory ++ [file_name], remote_size) ::
            mirrored_files_entries env ex rest local_directory

end

/-- The remote reported size of a reachable regular entry agrees with the
byte stream `Sftp::open` serves for it ("no remote changes" between the
listing and the copy). -/
def size_consistent (env : Env) (e : FsPath × FsPath × Nat) : Prop :=
  match env.remoteOpen e.1 with
  | .ok c => c.length = e.2.2
  | .error _ => False

/-- The outcome the transfer phase reports for one pair. The copy result
depends only on the environment (never on the local filesystem state or on
the other pairs), which is what makes per-item isolation a theorem; the
filesystem argument below is a dummy. -/
def attempted_outcome (env : Env) (rp lp : FsPath) : CopyOutcome :=
  ⟨rp, lp,
    match (copy_file env rp lp ⟨[], []⟩).2.2 with
    | .ok _ => none
    | .error e => some e⟩

/-- An environment in which every host operation succeeds and every remote
file is empty; witness scenarios adjust individual fields. -/
def env_plain : Env :=
  ⟨fun _ => false, fun _ => false, fun _ => false, fun _ => .ok [],
   fun _ => none, fun _ => none⟩

/-- Witness fixture: every remote file reads back as the single byte 5. -/
def env_c7 : Env :=
  ⟨fun _ => false, fun _ => false, fun _ => false, fun _ => .ok [5],
   fun _ => none, fun _ => none⟩

/-- Witness fixture: one remote regular file of reported size 1. -/
def tree_c7 : RemoteDir :=
  .ok [(["r", "a.txt"], ⟨false, some 1⟩, .ok [])]

/-! ### Traversal invariants -/

mutual

theorem find_paths_dirs_mono (env : Env) (ex : List String) (t : RemoteDir)
    (ld rd : FsPath) (s : WalkState) :
    ∀ p ∈ s.fs.dirs, p ∈ (find_paths env ex t ld rd s).1.fs.dirs := by
  intro p hp
  rw [find_paths]
  by_cases h : env.createDirFails ld
  · simp [h, hp]
  · simp only [h, Bool.false_eq_true, if_false]
    have hins : p ∈ insertDir s.fs.dirs ld := by
      simp only [insertDir]; split <;> simp [hp]
    match t with
    | .fail => simpa using hins
    | .ok entries => exact walk_entries_dirs_mono env ex entries ld _ p hins

theorem walk_entries_dirs_mono (env : Env) (ex : List String)
    (entries : List (FsPath × FileStat × RemoteDir)) (ld : FsPath) (s : WalkState) :
    ∀ p ∈ s.fs.dirs, p ∈ (walk_entries env ex entries ld s).1.fs.dirs := by
  intro p hp
  match entries with
  | [] => rw [walk_entries]; exact hp
  | (path, stat, sub) :: rest =>
    rw [walk_entries]
    match hf : fileName path with
    | none => exact walk_entries_dirs_mono env ex rest ld s p hp
    | some file_name =>
      by_cases hex : contains_name ex file_name
      · simp only [hex, if_true]
        exact walk_entries_dirs_mono env ex rest ld s p hp
      · simp only [hex, Bool.false_eq_true, if_false]
        by_cases hdir : stat.isDir
        · simp only [hdir, if_true]
          have h1 := find_paths_dirs_mono env ex sub (ld ++ [file_name]) path s p hp
          match hfp : find_paths env ex sub (ld ++ [file_name]) path s with
          | (s1, .ok _) =>
            rw [hfp] at h1
            exact walk_entries_dirs_mono env ex rest ld s1 p h1
          | (s1, .error e) =>
            rw [hfp] at h1
            exact h1
        · simp only [hdir, Bool.false_eq_true, if_false]
          match stat.size with
          | none => exact walk_entries_dirs_mono env ex rest ld s p hp
          | some remote_size =>
            simp only
            split
            · exact walk_entries_dirs_mono env ex rest ld _ p hp
            · split
              · exact hp
              · split
                · exact walk_entries_dirs_mono env ex rest ld _ p hp
                · exact walk_entries_dirs_mono env ex rest ld s p hp

end

mutual

theorem find_paths_files_eq (env : Env) (ex : List String) (t : RemoteDir)
    (ld rd : FsPath) (s : WalkState) :
    (find_paths env ex t ld rd s).1.fs.files = s.fs.files := by
  rw [find_paths]
  by_cases h : env.createDirFails ld
  · simp [h]
  · simp only [h, Bool.false_eq_true, if_false]
    match t with
    | .fail => simp
    | .ok entries => exact walk_entries_files_eq env ex entries ld _

theorem walk_entries_files_eq (env : Env) (ex : List String)
    (entries : List (FsPath × FileStat × RemoteDir)) (ld : FsPath) (s : WalkState) :
    (walk_entries env ex entries ld s).1.fs.files = s.fs.files := by
  match entries with
  | [] => rw [walk_entries]
  | (path, stat, sub) :: rest =>
    rw [walk_entries]
    match hf : fileName path with
    | none => exact walk_entries_files_eq env ex rest ld s
    | some file_name =>
      by_cases hex : contains_name ex file_name
      · simp only [hex, if_true]
        exact walk_entries_files_eq env ex rest ld s
      · simp only [hex, Bool.false_eq_true, if_false]
        by_cases hdir : stat.isDir
        · simp only [hdir, if_true]
          have h1 := find_paths_files_eq env ex sub (ld ++ [file_name]) path s
          match hfp : find_paths env ex sub (ld ++ [file_name]) path s with
          | (s1, .ok _) =>
            rw [hfp] at h1
            rw [walk_entries_files_eq env ex rest ld s1, h1]
          | (s1, .error e) =>
            rw [hfp] at h1
            exact h1
        · simp only [hdir, Bool.false_eq_true, if_false]
          match stat.size with
          | none => exact walk_entries_files_eq env ex rest ld s
          | some remote_size =>
            simp only
            split
            · exact walk_entries_files_eq env ex rest ld _
            · split
              · rfl
              · split
                · exact walk_entries_files_eq env ex rest ld _
                · exact walk_entries_files_eq env ex rest ld s

end

/-! ### Copy loop and copy_file lemmas -/

theorem chunk_sizes_zero : chunk_sizes 0 = [] := by
  conv_lhs => rw [chunk_sizes]
  exact if_pos rfl

theorem chunk_sizes_cons (n : Nat) (h : n ≠ 0) :
    chunk_sizes n = min BUFFER_SIZE n :: chunk_sizes (n - BUFFER_SIZE) := by
  conv_lhs => rw [chunk_sizes]
  exact if_neg h

theorem chunk_sizes_length_cons (n : Nat) (h : n ≠ 0) :
    (chunk_sizes n).length = (chunk_sizes (n - BUFFER_SIZE)).length + 1 := by
  rw [chunk_sizes_cons n h, List.length_cons]

theorem copy_loop_success_aux (n : Nat) : ∀ (k : Nat) (remaining written trace : List Nat),
    remaining.length ≤ n →
    copy_loop none none k remaining written trace =
      (written ++ remaining,
       trace ++ chunk_sizes remaining.length ++ [0], .ok ()) := by
  induction n with
  | zero =>
    intro k remaining written trace hle
    have hrem : remaining = [] := by
      exact List.eq_nil_of_length_eq_zero (Nat.le_zero.mp hle)
    subst hrem
    rw [copy_loop]
    rw [if_neg (by simp), dif_pos (by simp)]
    simp [chunk_sizes_zero]
  | succ n ih =>
    intro k remaining written trace hle
    rw [copy_loop]
    by_cases hz : (remaining.take BUFFER_SIZE).length = 0
    · have hb : 0 < BUFFER_SIZE := by norm_num [BUFFER_SIZE]
      have hrem : remaining = [] := by
        simp only [List.length_take] at hz
        have : remaining.length = 0 := by omega
        exact List.eq_nil_of_length_eq_zero this
      subst hrem
      rw [if_neg (by simp), dif_pos hz]
      simp [chunk_sizes_zero]
    · have hb : 0 < BUFFER_SIZE := by norm_num [BUFFER_SIZE]
      have hlen : remaining.length ≠ 0 := by
        simp only [List.length_take] at hz
        omega
      rw [if_neg (by simp), dif_neg hz, if_neg (by simp)]
      rw [ih (k + 1) (remaining.drop BUFFER_SIZE) _ _
        (by rw [List.length_drop]; omega)]
      rw [chunk_sizes_cons remaining.length hlen]
      rw [List.length_drop, List.length_take]
      refine congrArg₂ Prod.mk ?_ (congrArg₂ Prod.mk ?_ rfl)
      · rw [List.append_assoc, List.take_append_drop]
      · rw [List.append_assoc trace, List.singleton_append]

theorem copy_loop_success (k : Nat) (remaining written trace : List Nat) :
    copy_loop none none k remaining written trace =
      (written ++ remaining,
       trace ++ chunk_sizes remaining.length ++ [0], .ok ()) :=
  copy_loop_success_aux remaining.length k remaining written trace le_rfl

theorem chunk_sizes_mem (n : Nat) : ∀ c ∈ chunk_sizes n, 0 < c ∧ c ≤ BUFFER_SIZE := by
  intro c hc
  by_cases hn : n = 0
  · rw [hn, chunk_sizes_zero] at hc
    simp at hc
  · rw [chunk_sizes_cons n hn, List.mem_cons] at hc
    rcases hc with hc | hc
    · subst hc
      have hb : 0 < BUFFER_SIZE := by norm_num [BUFFER_SIZE]
      exact ⟨by omega, Nat.min_le_left _ _⟩
    · exact chunk_sizes_mem (n - BUFFER_SIZE) c hc
termination_by n
decreasing_by
  have hb : 0 < BUFFER_SIZE := by norm_num [BUFFER_SIZE]
  omega

theorem copy_loop_read_fail (j k : Nat) (remaining written trace : List Nat)
    (hk : k ≤ j) (hj : j - k ≤ (chunk_sizes remaining.length).length) :
    (copy_loop (some j) none k remaining written trace).2.2 = .error .readErr := by
  rw [copy_loop]
  by_cases hjk : j = k
  · rw [if_pos (by rw [hjk])]
  · have hb : 0 < BUFFER_SIZE := by norm_num [BUFFER_SIZE]
    have hkj : k < j := by omega
    have hck : (chunk_sizes remaining.length).length ≠ 0 := by omega
    have hlen : remaining.length ≠ 0 := by
      intro h0
      rw [h0, chunk_sizes_zero] at hck
      simp at hck
    by_cases hz : (remaining.take BUFFER_SIZE).length = 0
    · exfalso
      simp only [List.length_take] at hz
      omega
    · have hcs := chunk_sizes_length_cons remaining.length hlen
      rw [if_neg (by simp [hjk]), dif_neg hz, if_neg (by simp)]
      exact copy_loop_read_fail j (k + 1) (remaining.drop BUFFER_SIZE) _ _
        (by omega) (by rw [List.length_drop]; omega)
termination_by remaining.length
decreasing_by
  have hb : 0 < BUFFER_SIZE := by norm_num [BUFFER_SIZE]
  simp only [List.length_drop, List.length_take] at *
  omega

theorem copy_loop_write_fail (j k : Nat) (remaining written trace : List Nat)
    (hk : k ≤ j) (hj : j - k < (chunk_sizes remaining.length).length) :
    (copy_loop none (some j) k remaining written trace).2.2 = .error .writeErr := by
  rw [copy_loop]
  have hb : 0 < BUFFER_SIZE := by norm_num [BUFFER_SIZE]
  have hck : (chunk_sizes remaining.length).length ≠ 0 := by omega
  have hlen : remaining.length ≠ 0 := by
    intro h0
    rw [h0, chunk_sizes_zero] at hck
    simp at hck
  by_cases hz : (remaining.take BUFFER_SIZE).length = 0
  · exfalso
    simp only [List.length_take] at hz
    omega
  · by_cases hjk : j = k
    · rw [if_neg (by simp), dif_neg hz, if_pos (by rw [hjk])]
    · have hcs := chunk_sizes_length_cons remaining.length hlen
      rw [if_neg (by simp), dif_neg hz, if_neg (by simp [hjk])]
      exact copy_loop_write_fail j (k + 1) (remaining.drop BUFFER_SIZE) _ _
        (by omega) (by rw [List.length_drop]; omega)
termination_by remaining.length
decreasing_by
  have hb : 0 < BUFFER_SIZE := by norm_num [BUFFER_SIZE]
  simp only [List.length_drop, List.length_take] at *
  omega

theorem lookupFile_setFile (files : List (FsPath × List Nat)) (p q : FsPath) (c : List Nat) :
    lookupFile (setFile files p c) q = if p = q then some c else lookupFile files q := by
  induction files with
  | nil => simp [setFile, lookupFile]
  | cons hd tl ih =>
    obtain ⟨r, d⟩ := hd
    by_cases hrp : r = p
    · subst hrp
      by_cases hq : r = q
      · subst hq
        simp [setFile, lookupFile]
      · simp [setFile, lookupFile, hq]
    · by_cases hq : r = q
      · subst hq
        have hpr : ¬ p = r := fun h => hrp h.symm
        simp [setFile, lookupFile, hrp, hpr]
      · simp [setFile, lookupFile, hrp, hq, ih]

theorem copy_file_success (env : Env) (rp lp : FsPath) (fs : LocalFS)
    (content : List Nat)
    (hro : env.remoteOpen rp = .ok content)
    (hcf : env.createFileFails lp = false)
    (hrd : env.readFailAt rp = none)
    (hwr : env.writeFailAt lp = none) :
    copy_file env rp lp fs =
      ({ fs with files := setFile fs.files lp content },
       chunk_sizes content.length ++ [0], .ok ()) := by
  simp only [copy_file, hro, hcf, Bool.false_eq_true, if_false, hrd, hwr,
    copy_loop_success, List.nil_append]

theorem copy_file_open_fail (env : Env) (rp lp : FsPath) (fs : LocalFS)
    (er : Unit) (hro : env.remoteOpen rp = .error er) :
    copy_file env rp lp fs = (fs, [], .error .remoteOpenErr) := by
  simp only [copy_file, hro]

theorem copy_file_create_fail (env : Env) (rp lp : FsPath) (fs : LocalFS)
    (content : List Nat)
    (hro : env.remoteOpen rp = .ok content)
    (hcf : env.createFileFails lp = true) :
    copy_file env rp lp fs = (fs, [], .error .localCreateErr) := by
  simp only [copy_file, hro, hcf, if_true]

theorem copy_file_read_fail (env : Env) (rp lp : FsPath) (fs : LocalFS)
    (content : List Nat) (j : Nat)
    (hro : env.remoteOpen rp = .ok content)
    (hcf : env.createFileFails lp = false)
    (hrd : env.readFailAt rp = some j)
    (hwr : env.writeFailAt lp = none)
    (hj : j ≤ (chunk_sizes content.length).length) :
    (copy_file env rp lp fs).2.2 = .error .readErr := by
  simp only [copy_file, hro, hcf, Bool.false_eq_true, if_false, hrd, hwr]
  have h := copy_loop_read_fail j 0 content [] [] (Nat.zero_le j) (by omega)
  match hcl : copy_loop (some j) none 0 content [] [] with
  | (written, trace, res) =>
    rw [hcl] at h
    exact h

theorem copy_file_write_fail (env : Env) (rp lp : FsPath) (fs : LocalFS)
    (content : List Nat) (j : Nat)
    (hro : env.remoteOpen rp = .ok content)
    (hcf : env.createFileFails lp = false)
    (hrd : env.readFailAt rp = none)
    (hwr : env.writeFailAt lp = some j)
    (hj : j < (chunk_sizes content.length).length) :
    (copy_file env rp lp fs).2.2 = .error .writeErr := by
  simp only [copy_file, hro, hcf, Bool.false_eq_true, if_false, hrd, hwr]
  have h := copy_loop_write_fail j 0 content [] [] (Nat.zero_le j) (by omega)
  match hcl : copy_loop none (some j) 0 content [] [] with
  | (written, trace, res) =>
    rw [hcl] at h
    exact h

theorem copy_file_snd_const (env : Env) (rp lp : FsPath) (fs fs2 : LocalFS) :
    (copy_file env rp lp fs).2 = (copy_file env rp lp fs2).2 := by
  cases hro : env.remoteOpen rp with
  | error e => simp only [copy_file, hro]
  | ok content =>
    simp only [copy_file, hro]
    by_cases hcf : env.createFileFails lp
    · rw [if_pos hcf, if_pos hcf]
    · rw [if_neg hcf, if_neg hcf]

theorem copy_file_dirs (env : Env) (rp lp : FsPath) (fs : LocalFS) :
    (copy_file env rp lp fs).1.dirs = fs.dirs := by
  cases hro : env.remoteOpen rp with
  | error e => simp only [copy_file, hro]
  | ok content =>
    simp only [copy_file, hro]
    by_cases hcf : env.createFileFails lp
    · rw [if_pos hcf]
    · rw [if_neg hcf]

theorem copy_file_files (env : Env) (rp lp : FsPath) (fs : LocalFS) :
    (copy_file env rp lp fs).1.files = fs.files ∨
      ∃ w, (copy_file env rp lp fs).1.files = setFile fs.files lp w := by
  cases hro : env.remoteOpen rp with
  | error e =>
    simp only [copy_file, hro]
    exact Or.inl trivial
  | ok content =>
    simp only [copy_file, hro]
    by_cases hcf : env.createFileFails lp
    · rw [if_pos hcf]
      exact Or.inl rfl
    · rw [if_neg hcf]
      exact Or.inr ⟨_, rfl⟩

theorem execute_transfers_nil (env : Env) (fs : LocalFS) :
    execute_transfers env [] fs = (fs, []) := rfl

theorem execute_transfers_cons (env : Env) (rp lp : FsPath)
    (rest : List (FsPath × FsPath)) (fs : LocalFS) :
    execute_transfers env ((rp, lp) :: rest) fs =
      ((execute_transfers env rest (copy_file env rp lp fs).1).1,
       ⟨rp, lp,
         match (copy_file env rp lp fs).2.2 with
         | .ok _ => none
         | .error e => some e⟩ ::
         (execute_transfers env rest (copy_file env rp lp fs).1).2) := rfl

theorem execute_transfers_dirs (env : Env) (pairs : List (FsPath × FsPath))
    (fs : LocalFS) :
    (execute_transfers env pairs fs).1.dirs = fs.dirs := by
  induction pairs generalizing fs with
  | nil => rw [execute_transfers_nil]
  | cons hd rest ih =>
    obtain ⟨rp, lp⟩ := hd
    rw [execute_transfers_cons]
    show (execute_transfers env rest (copy_file env rp lp fs).1).1.dirs = fs.dirs
    rw [ih, copy_file_dirs]

theorem execute_transfers_outcomes (env : Env) (pairs : List (FsPath × FsPath))
    (fs : LocalFS) :
    (execute_transfers env pairs fs).2 =
      pairs.map (fun q => attempted_outcome env q.1 q.2) := by
  induction pairs generalizing fs with
  | nil => rw [execute_transfers_nil, List.map_nil]
  | cons hd rest ih =>
    obtain ⟨rp, lp⟩ := hd
    rw [execute_transfers_cons, List.map_cons]
    have hsnd : (copy_file env rp lp fs).2.2 = (copy_file env rp lp ⟨[], []⟩).2.2 :=
      congrArg Prod.snd (copy_file_snd_const env rp lp fs ⟨[], []⟩)
    rw [show (⟨rp, lp,
        match (copy_file env rp lp fs).2.2 with
        | .ok _ => none
        | .error e => some e⟩ : CopyOutcome) = attempted_outcome env rp lp by
      rw [attempted_outcome, hsnd]]
    rw [ih]

theorem execute_transfers_lookup_untouched (env : Env)
    (pairs : List (FsPath × FsPath)) (fs : LocalFS) (p : FsPath)
    (hp : p ∉ pairs.map Prod.snd) :
    lookupFile (execute_transfers env pairs fs).1.files p = lookupFile fs.files p := by
  induction pairs generalizing fs with
  | nil => rw [execute_transfers_nil]
  | cons hd rest ih =>
    obtain ⟨rp, lp⟩ := hd
    rw [List.map_cons, List.mem_cons] at hp
    push_neg at hp
    rw [execute_transfers_cons]
    show lookupFile (execute_transfers env rest (copy_file env rp lp fs).1).1.files p =
      lookupFile fs.files p
    rw [ih _ hp.2]
    rcases copy_file_files env rp lp fs with h | ⟨w, h⟩
    · rw [h]
    · rw [h, lookupFile_setFile, if_neg (fun he => hp.1 he.symm)]

theorem execute_transfers_lookup_isSome (env : Env)
    (pairs : List (FsPath × FsPath)) (fs : LocalFS) (p : FsPath)
    (hp : (lookupFile fs.files p).isSome = true) :
    (lookupFile (execute_transfers env pairs fs).1.files p).isSome = true := by
  induction pairs generalizing fs with
  | nil => rw [execute_transfers_nil]; exact hp
  | cons hd rest ih =>
    obtain ⟨rp, lp⟩ := hd
    rw [execute_transfers_cons]
    show (lookupFile (execute_transfers env rest (copy_file env rp lp fs).1).1.files p).isSome = true
    refine ih _ ?_
    rcases copy_file_files env rp lp fs with h | ⟨w, h⟩
    · rw [h]; exact hp
    · rw [h, lookupFile_setFile]
      by_cases hlp : lp = p
      · rw [if_pos hlp]; rfl
      · rw [if_neg hlp]; exact hp

theorem execute_transfers_lookup_written (env : Env)
    (pairs : List (FsPath × FsPath)) (fs : LocalFS) (rp0 p : FsPath) (c : List Nat)
    (hnd : (pairs.map Prod.snd).Nodup)
    (hmem : (rp0, p) ∈ pairs)
    (hcf : ∀ q, env.createFileFails q = false)
    (hrd : ∀ q, env.readFailAt q = none)
    (hwr : ∀ q, env.writeFailAt q = none)
    (hro : env.remoteOpen rp0 = .ok c) :
    lookupFile (execute_transfers env pairs fs).1.files p = some c := by
  induction pairs generalizing fs with
  | nil => simp at hmem
  | cons hd rest ih =>
    obtain ⟨rq, lq⟩ := hd
    rw [List.map_cons] at hnd
    have hnd1 := List.nodup_cons.mp hnd
    rw [execute_transfers_cons]
    show lookupFile (execute_transfers env rest (copy_file env rq lq fs).1).1.files p = some c
    rcases List.mem_cons.mp hmem with heq | hm
    · have hrq : rq = rp0 := congrArg Prod.fst heq.symm
      have hlq : lq = p := congrArg Prod.snd heq.symm
      subst hrq
      subst hlq
      rw [copy_file_success env rq lq fs c hro (hcf lq) (hrd rq) (hwr lq)]
      rw [execute_transfers_lookup_untouched env rest _ lq hnd1.1]
      show lookupFile (setFile fs.files lq c) lq = some c
      rw [lookupFile_setFile, if_pos rfl]
    · exact ih _ hnd1.2 hm

/-! ### Unfolding equations for the walker and the run -/

theorem find_paths_create_fail (env : Env) (ex : List String) (t : RemoteDir)
    (ld rd : FsPath) (s : WalkState)
    (h : env.createDirFails ld = true) :
    find_paths env ex t ld rd s = (s, .error (.createDirFailed ld)) := by
  rw [find_paths]
  rw [if_pos h]

theorem find_paths_fail_listing (env : Env) (ex : List String)
    (ld rd : FsPath) (s : WalkState)
    (h : env.createDirFails ld = false) :
    find_paths env ex .fail ld rd s =
      ({ s with fs := { s.fs with dirs := insertDir s.fs.dirs ld } },
       .error (.readdirFailed rd)) := by
  rw [find_paths]
  rw [if_neg (by rw [h]; exact Bool.false_ne_true)]

theorem find_paths_ok_listing (env : Env) (ex : List String)
    (entries : List (FsPath × FileStat × RemoteDir)) (ld rd : FsPath) (s : WalkState)
    (h : env.createDirFails ld = false) :
    find_paths env ex (.ok entries) ld rd s =
      walk_entries env ex entries ld
        { s with fs := { s.fs with dirs := insertDir s.fs.dirs ld } } := by
  rw [find_paths]
  rw [if_neg (by rw [h]; exact Bool.false_ne_true)]

theorem walk_entries_nil (env : Env) (ex : List String) (ld : FsPath) (s : WalkState) :
    walk_entries env ex [] ld s = (s, .ok ()) := by
  rw [walk_entries]

theorem walk_entries_cons_no_name (env : Env) (ex : List String)
    (path : FsPath) (stat : FileStat) (sub : RemoteDir)
    (rest : List (FsPath × FileStat × RemoteDir)) (ld : FsPath) (s : WalkState)
    (hname : fileName path = none) :
    walk_entries env ex ((path, stat, sub) :: rest) ld s =
      walk_entries env ex rest ld s := by
  rw [walk_entries]
  simp only [hname]

theorem walk_entries_cons_excluded (env : Env) (ex : List String)
    (path : FsPath) (stat : FileStat) (sub : RemoteDir)
    (rest : List (FsPath × FileStat × RemoteDir)) (ld : FsPath) (s : WalkState)
    (file_name : String)
    (hname : fileName path = some file_name)
    (hex : contains_name ex file_name = true) :
    walk_entries env ex ((path, stat, sub) :: rest) ld s =
      walk_entries env ex rest ld s := by
  rw [walk_entries]
  simp only [hname, hex, if_true]

theorem walk_entries_cons_dir (env : Env) (ex : List String)
    (path : FsPath) (stat : FileStat) (sub : RemoteDir)
    (rest : List (FsPath × FileStat × RemoteDir)) (ld : FsPath) (s : WalkState)
    (file_name : String)
    (hname : fileName path = some file_name)
    (hex : contains_name ex file_name = false)
    (hdir : stat.isDir = true) :
    walk_entries env ex ((path, stat, sub) :: rest) ld s =
      match find_paths env ex sub (ld ++ [file_name]) path s with
      | (s1, .ok _) => walk_entries env ex rest ld s1
      | (s1, .error e) => (s1, .error e) := by
  rw [walk_entries]
  simp only [hname, hex, Bool.false_eq_true, if_false, hdir, if_true]

theorem walk_entries_cons_no_size (env : Env) (ex : List String)
    (path : FsPath) (stat : FileStat) (sub : RemoteDir)
    (rest : List (FsPath × FileStat × RemoteDir)) (ld : FsPath) (s : WalkState)
    (file_name : String)
    (hname : fileName path = some file_name)
    (hex : contains_name ex file_name = false)
    (hdir : stat.isDir = false)
    (hsz : stat.size = none) :
    walk_entries env ex ((path, stat, sub) :: rest) ld s =
      walk_entries env ex rest ld s := by
  rw [walk_entries]
  simp only [hname, hex, Bool.false_eq_true, if_false, hdir, hsz]

theorem walk_entries_cons_open_fail (env : Env) (ex : List String)
    (path : FsPath) (stat : FileStat) (sub : RemoteDir)
    (rest : List (FsPath × FileStat × RemoteDir)) (ld : FsPath) (s : WalkState)
    (file_name : String) (remote_size : Nat)
    (hname : fileName path = some file_name)
    (hex : contains_name ex file_name = false)
    (hdir : stat.isDir = false)
    (hsz : stat.size = some remote_size)
    (hexi : s.fs.existsPath (ld ++ [file_name]) = true)
    (hopen : env.openLocalFails (ld ++ [file_name]) = true) :
    walk_entries env ex ((path, stat, sub) :: rest) ld s =
      (s, .error (.localOpenFailed (ld ++ [file_name]))) := by
  rw [walk_entries]
  simp only [hname, hex, Bool.false_eq_true, if_false, hdir, hsz]
  rw [if_neg (by rw [hexi]; simp)]
  rw [if_pos hopen]

theorem walk_entries_cons_file (env : Env) (ex : List String)
    (path : FsPath) (stat : FileStat) (sub : RemoteDir)
    (rest : List (FsPath × FileStat × RemoteDir)) (ld : FsPath) (s : WalkState)
    (file_name : String) (remote_size : Nat)
    (hname : fileName path = some file_name)
    (hex : contains_name ex file_name = false)
    (hdir : stat.isDir = false)
    (hsz : stat.size = some remote_size)
    (hopen : env.openLocalFails (ld ++ [file_name]) = false) :
    walk_entries env ex ((path, stat, sub) :: rest) ld s =
      walk_entries env ex rest ld
        { s with out := s.out ++
            (if s.fs.existsPath (ld ++ [file_name]) = false ∨
                s.fs.lengthAt (ld ++ [file_name]) ≠ remote_size then
              [(path, ld ++ [file_name])]
            else []) } := by
  rw [walk_entries]
  simp only [hname, hex, Bool.false_eq_true, if_false, hdir, hsz]
  by_cases hexi : s.fs.existsPath (ld ++ [file_name]) = false
  · rw [if_pos hexi, if_pos (Or.inl hexi)]
  · rw [if_neg hexi]
    rw [if_neg (by rw [hopen]; exact Bool.false_ne_true)]
    by_cases hlen : s.fs.lengthAt (ld ++ [file_name]) ≠ remote_size
    · rw [if_pos hlen, if_pos (Or.inr hlen)]
    · rw [if_neg hlen, if_neg (by push_neg; exact ⟨hexi, not_not.mp hlen⟩)]
      show walk_entries env ex rest ld s =
        walk_entries env ex rest ld { s with out := s.out ++ [] }
      rw [List.append_nil]

theorem sync_root_missing (env : Env) (ex : List String) (t : RemoteDir)
    (ld rd : FsPath) (fs : LocalFS)
    (h : fs.existsPath ld = false) :
    sync_local_directory env ex t ld rd fs =
      ⟨fs, [], [], .error (.localRootMissing ld)⟩ := by
  rw [sync_local_directory]
  rw [if_pos h]

theorem sync_fatal (env : Env) (ex : List String) (t : RemoteDir)
    (ld rd : FsPath) (fs : LocalFS) (s : WalkState) (e : SyncError)
    (h : fs.existsPath ld = true)
    (hfp : find_paths env ex t ld rd ⟨fs, []⟩ = (s, .error e)) :
    sync_local_directory env ex t ld rd fs = ⟨s.fs, s.out, [], .error e⟩ := by
  rw [sync_local_directory]
  rw [if_neg (by rw [h]; simp)]
  simp only [hfp]

theorem sync_ok (env : Env) (ex : List String) (t : RemoteDir)
    (ld rd : FsPath) (fs : LocalFS) (s : WalkState)
    (h : fs.existsPath ld = true)
    (hfp : find_paths env ex t ld rd ⟨fs, []⟩ = (s, .ok ())) :
    sync_local_directory env ex t ld rd fs =
      ⟨(execute_transfers env s.out s.fs).1, s.out,
       (execute_transfers env s.out s.fs).2, .ok ()⟩ := by
  rw [sync_local_directory]
  rw [if_neg (by rw [h]; simp)]
  simp only [hfp]

theorem mem_insertDir_self (dirs : List FsPath) (p : FsPath) :
    p ∈ insertDir dirs p := by
  rw [insertDir]
  split
  · assumption
  · exact List.mem_cons_self p dirs

/-! ### Claim theorems -/

/-- C1: for every regular, non-excluded remote entry whose name and size are
obtainable (and whose staleness check does not abort on a local open
failure), the walker appends the pair `(remote path, mirrored local path)` to
the work list exactly when no local object exists at the mirrored path or the
existing local object's byte length differs from the remote reported size;
when the lengths are equal the entry contributes nothing, regardless of
content. -/
theorem claim_C1 (env : Env) (ex : List String)
    (path : FsPath) (stat : FileStat) (sub : RemoteDir)
    (rest : List (FsPath × FileStat × RemoteDir)) (ld : FsPath) (s : WalkState)
    (file_name : String) (remote_size : Nat)
    (hname : fileName path = some file_name)
    (hex : contains_name ex file_name = false)
    (hdir : stat.isDir = false)
    (hsz : stat.size = some remote_size)
    (hopen : env.openLocalFails (ld ++ [file_name]) = false) :
    walk_entries env ex ((path, stat, sub) :: rest) ld s =
      walk_entries env ex rest ld
        { s with out := s.out ++
            (if s.fs.existsPath (ld ++ [file_name]) = false ∨
                s.fs.lengthAt (ld ++ [file_name]) ≠ remote_size then
              [(path, ld ++ [file_name])]
            else []) } :=
  walk_entries_cons_file env ex path stat sub rest ld s file_name remote_size
    hname hex hdir hsz hopen

theorem claim_C1_witness :
    fileName ["r", "a.txt"] = some "a.txt" ∧
    contains_name [] "a.txt" = false ∧
    walk_entries env_plain [] [(["r", "a.txt"], ⟨false, some 3⟩, .ok [])] ["l"]
        ⟨⟨[], []⟩, []⟩ =
      walk_entries env_plain [] [] ["l"]
        ⟨⟨[], []⟩, [] ++
          (if LocalFS.existsPath ⟨[], []⟩ (["l"] ++ ["a.txt"]) = false ∨
              LocalFS.lengthAt ⟨[], []⟩ (["l"] ++ ["a.txt"]) ≠ 3 then
            [(["r", "a.txt"], ["l"] ++ ["a.txt"])]
          else [])⟩ :=
  ⟨rfl,
   by simp [contains_name, binary_search, binary_search_loop],
   claim_C1 env_plain [] ["r", "a.txt"] ⟨false, some 3⟩ (.ok []) [] ["l"]
     ⟨⟨[], []⟩, []⟩ "a.txt" 3 rfl
     (by simp [contains_name, binary_search, binary_search_loop])
     rfl rfl rfl⟩

/-- C4: if the traversal returns a fatal error, `sync_local_directory`
returns exactly that error and the transfer phase never starts: the list of
attempted copy outcomes is empty.  Likewise, a missing local root aborts the
run before any traversal or transfer. -/
theorem claim_C4 (env : Env) (ex : List String) (t : RemoteDir)
    (ld rd : FsPath) (fs : LocalFS) (s : WalkState) (e : SyncError) :
    (fs.existsPath ld = true →
      find_paths env ex t ld rd ⟨fs, []⟩ = (s, .error e) →
      sync_local_directory env ex t ld rd fs = ⟨s.fs, s.out, [], .error e⟩) ∧
    (fs.existsPath ld = false →
      sync_local_directory env ex t ld rd fs =
        ⟨fs, [], [], .error (.localRootMissing ld)⟩) :=
  ⟨fun h hfp => sync_fatal env ex t ld rd fs s e h hfp,
   fun h => sync_root_missing env ex t ld rd fs h⟩

theorem claim_C4_witness :
    LocalFS.existsPath ⟨[["l"]], []⟩ ["l"] = true ∧
    find_paths env_plain [] .fail ["l"] ["r"] ⟨⟨[["l"]], []⟩, []⟩ =
      (⟨⟨[["l"]], []⟩, []⟩, .error (.readdirFailed ["r"])) ∧
    sync_local_directory env_plain [] .fail ["l"] ["r"] ⟨[["l"]], []⟩ =
      ⟨⟨[["l"]], []⟩, [], [], .error (.readdirFailed ["r"])⟩ :=
  ⟨by decide,
   by rw [find_paths_fail_listing env_plain [] ["l"] ["r"] ⟨⟨[["l"]], []⟩, []⟩ rfl]
      simp [insertDir],
   (claim_C4 env_plain [] .fail ["l"] ["r"] ⟨[["l"]], []⟩
       ⟨⟨[["l"]], []⟩, []⟩ (.readdirFailed ["r"])).1
     (by decide)
     (by rw [find_paths_fail_listing env_plain [] ["l"] ["r"] ⟨⟨[["l"]], []⟩, []⟩ rfl]
         simp [insertDir])⟩

/-- C5: the transfer phase reports exactly one outcome per work-list pair, in
order: each outcome carries that pair's remote path, local path and the
error of its own copy attempt (none on success).  The outcome of a pair
depends only on the environment — never on the local filesystem state left
by other pairs — so one pair's failure cannot prevent or alter any other
pair's attempt, and the phase as a whole is a total function with no error
result. -/
theorem claim_C5 (env : Env) (pairs : List (FsPath × FsPath)) (fs : LocalFS) :
    (execute_transfers env pairs fs).2 =
      pairs.map (fun q => attempted_outcome env q.1 q.2) ∧
    (execute_transfers env pairs fs).2.length = pairs.length ∧
    (∀ fs2, (execute_transfers env pairs fs).2 = (execute_transfers env pairs fs2).2) := by
  refine ⟨execute_transfers_outcomes env pairs fs, ?_, ?_⟩
  · rw [execute_transfers_outcomes env pairs fs, List.length_map]
  · intro fs2
    rw [execute_transfers_outcomes env pairs fs, execute_transfers_outcomes env pairs fs2]

/-- C10: the walker creates the local mirror directory before attempting to
list the remote directory, and fatal errors never roll directory creation
back: local directories only accumulate across the whole traversal, a
listing failure on a directory still leaves that directory created, and the
full run (including its transfer phase) never removes a local directory. -/
theorem claim_C10 (env : Env) (ex : List String) (t : RemoteDir)
    (ld rd : FsPath) (s : WalkState) (fs : LocalFS) :
    (∀ p ∈ s.fs.dirs, p ∈ (find_paths env ex t ld rd s).1.fs.dirs) ∧
    (env.createDirFails ld = false →
      find_paths env ex .fail ld rd s =
        ({ s with fs := { s.fs with dirs := insertDir s.fs.dirs ld } },
         .error (.readdirFailed rd)) ∧
      ld ∈ (find_paths env ex RemoteDir.fail ld rd s).1.fs.dirs) ∧
    (∀ p ∈ fs.dirs, p ∈ (sync_local_directory env ex t ld rd fs).fs.dirs) := by
  refine ⟨find_paths_dirs_mono env ex t ld rd s, ?_, ?_⟩
  · intro h
    refine ⟨find_paths_fail_listing env ex ld rd s h, ?_⟩
    rw [find_paths_fail_listing env ex ld rd s h]
    exact mem_insertDir_self s.fs.dirs ld
  · intro p hp
    by_cases hroot : fs.existsPath ld = false
    · rw [sync_root_missing env ex t ld rd fs hroot]
      exact hp
    · have hroot2 : fs.existsPath ld = true := by
        revert hroot
        cases fs.existsPath ld <;> simp
      match hfp : find_paths env ex t ld rd ⟨fs, []⟩ with
      | (s1, .ok _) =>
        rw [sync_ok env ex t ld rd fs s1 hroot2 hfp]
        show p ∈ (execute_transfers env s1.out s1.fs).1.dirs
        rw [execute_transfers_dirs]
        have := find_paths_dirs_mono env ex t ld rd ⟨fs, []⟩ p hp
        rw [hfp] at this
        exact this
      | (s1, .error e) =>
        rw [sync_fatal env ex t ld rd fs s1 e hroot2 hfp]
        have := find_paths_dirs_mono env ex t ld rd ⟨fs, []⟩ p hp
        rw [hfp] at this
        exact this

theorem claim_C10_witness :
    (["x"] ∈ (find_paths env_plain [] (.ok []) ["l"] ["r"]
      ⟨⟨[["x"]], []⟩, []⟩).1.fs.dirs) ∧
    (find_paths env_plain [] .fail ["l"] ["r"] ⟨⟨[["x"]], []⟩, []⟩ =
      ({ fs := { dirs := insertDir [["x"]] ["l"], files := [] }, out := [] },
       .error (.readdirFailed ["r"])) ∧
     ["l"] ∈ (find_paths env_plain [] RemoteDir.fail ["l"] ["r"]
       ⟨⟨[["x"]], []⟩, []⟩).1.fs.dirs) ∧
    (["x"] ∈ (sync_local_directory env_plain [] (.ok []) ["l"] ["r"]
      ⟨[["x"], ["l"]], []⟩).fs.dirs) :=
  ⟨(claim_C10 env_plain [] (.ok []) ["l"] ["r"] ⟨⟨[["x"]], []⟩, []⟩
      ⟨[["x"]], []⟩).1 ["x"] (by decide),
   (claim_C10 env_plain [] (.ok []) ["l"] ["r"] ⟨⟨[["x"]], []⟩, []⟩
      ⟨[["x"]], []⟩).2.1 rfl,
   (claim_C10 env_plain [] (.ok []) ["l"] ["r"] ⟨⟨[["x"]], []⟩, []⟩
      ⟨[["x"], ["l"]], []⟩).2.2 ["x"] (by decide)⟩

/-- C6: on success `copy_file` leaves the local file holding exactly the byte
sequence served by the remote file: it streams chunks whose sizes are
positive and at most `BUFFER_SIZE` (128 KiB), each fully written before the
next read, and stops at the first zero-length read (the final 0 in the
trace).  An open failure on either side, or a read or write failure at any
loop iteration that is actually reached, aborts the copy with that error. -/
theorem claim_C6 :
    (∀ (env : Env) (rp lp : FsPath) (fs : LocalFS) (content : List Nat),
      env.remoteOpen rp = .ok content →
      env.createFileFails lp = false →
      env.readFailAt rp = none →
      env.writeFailAt lp = none →
      copy_file env rp lp fs =
        ({ fs with files := setFile fs.files lp content },
         chunk_sizes content.length ++ [0], .ok ())) ∧
    (∀ (n c : Nat), c ∈ chunk_sizes n → 0 < c ∧ c ≤ BUFFER_SIZE) ∧
    (∀ (env : Env) (rp lp : FsPath) (fs : LocalFS) (er : Unit),
      env.remoteOpen rp = .error er →
      copy_file env rp lp fs = (fs, [], .error .remoteOpenErr)) ∧
    (∀ (env : Env) (rp lp : FsPath) (fs : LocalFS) (content : List Nat),
      env.remoteOpen rp = .ok content →
      env.createFileFails lp = true →
      copy_file env rp lp fs = (fs, [], .error .localCreateErr)) ∧
    (∀ (env : Env) (rp lp : FsPath) (fs : LocalFS) (content : List Nat) (j : Nat),
      env.remoteOpen rp = .ok content →
      env.createFileFails lp = false →
      env.readFailAt rp = some j →
      env.writeFailAt lp = none →
      j ≤ (chunk_sizes content.length).length →
      (copy_file env rp lp fs).2.2 = .error .readErr) ∧
    (∀ (env : Env) (rp lp : FsPath) (fs : LocalFS) (content : List Nat) (j : Nat),
      env.remoteOpen rp = .ok content →
      env.createFileFails lp = false →
      env.readFailAt rp = none →
      env.writeFailAt lp = some j →
      j < (chunk_sizes content.length).length →
      (copy_file env rp lp fs).2.2 = .error .writeErr) :=
  ⟨fun env rp lp fs content hro hcf hrd hwr =>
    copy_file_success env rp lp fs content hro hcf hrd hwr,
   fun n c hc => chunk_sizes_mem n c hc,
   fun env rp lp fs er hro => copy_file_open_fail env rp lp fs er hro,
   fun env rp lp fs content hro hcf => copy_file_create_fail env rp lp fs content hro hcf,
   fun env rp lp fs content j hro hcf hrd hwr hj =>
     copy_file_read_fail env rp lp fs content j hro hcf hrd hwr hj,
   fun env rp lp fs content j hro hcf hrd hwr hj =>
     copy_file_write_fail env rp lp fs content j hro hcf hrd hwr hj⟩

theorem claim_C6_witness :
    copy_file { env_plain with remoteOpen := fun _ => .ok [7, 8, 9] }
        ["r"] ["l"] ⟨[], []⟩ =
      ({ dirs := [], files := setFile [] ["l"] [7, 8, 9] },
       chunk_sizes (List.length [7, 8, 9]) ++ [0], .ok ()) ∧
    (0 < 3 ∧ 3 ≤ BUFFER_SIZE) ∧
    copy_file { env_plain with remoteOpen := fun _ => .error () }
        ["r"] ["l"] ⟨[], []⟩ =
      (⟨[], []⟩, [], .error .remoteOpenErr) ∧
    (copy_file { env_plain with readFailAt := fun _ => some 0 }
        ["r"] ["l"] ⟨[], []⟩).2.2 = .error .readErr ∧
    (copy_file ⟨fun _ => false, fun _ => false, fun _ => false,
        fun _ => .ok [7], fun _ => none, fun _ => some 0⟩
        ["r"] ["l"] ⟨[], []⟩).2.2 = .error .writeErr :=
  ⟨claim_C6.1 _ ["r"] ["l"] ⟨[], []⟩ [7, 8, 9] rfl rfl rfl rfl,
   claim_C6.2.1 3 3 (by
     rw [chunk_sizes_cons 3 (by norm_num)]
     norm_num [BUFFER_SIZE, chunk_sizes_zero]),
   claim_C6.2.2.1 _ ["r"] ["l"] ⟨[], []⟩ () rfl,
   claim_C6.2.2.2.2.1 _ ["r"] ["l"] ⟨[], []⟩ [] 0 rfl rfl rfl rfl
     (by simp [chunk_sizes_zero]),
   claim_C6.2.2.2.2.2 _ ["r"] ["l"] ⟨[], []⟩ [7] 0 rfl rfl rfl rfl
     (by show 0 < (chunk_sizes 1).length
         rw [chunk_sizes_cons 1 one_ne_zero]
         simp)⟩

/-! ### Binary search over the sorted exclusion list -/

theorem strCmp_eq_eq (a b : String) : strCmp a b = .eq ↔ a = b := by
  rw [strCmp]
  split_ifs with h1 h2
  · exact iff_of_false (by simp)
      (fun he => absurd h1 (by rw [he]; exact lt_irrefl b))
  · exact iff_of_true rfl h2
  · exact iff_of_false (by simp) h2

theorem strCmp_eq_lt (a b : String) : strCmp a b = .lt ↔ a < b := by
  rw [strCmp]
  split_ifs with h1 h2
  · exact iff_of_true rfl h1
  · exact iff_of_false (by simp) h1
  · exact iff_of_false (by simp) h1

theorem strCmp_eq_gt (a b : String) : strCmp a b = .gt ↔ b < a := by
  rw [strCmp]
  split_ifs with h1 h2
  · exact iff_of_false (by simp) (lt_asymm h1)
  · exact iff_of_false (by simp) (by rw [h2]; exact lt_irrefl b)
  · exact iff_of_true rfl ((lt_or_gt_of_ne h2).resolve_left h1)

theorem getD_eq_get_str (l : List String) (i : Nat) (h : i < l.length) :
    l.getD i "" = l.get ⟨i, h⟩ := by
  rw [List.get_eq_getElem, List.getD_eq_getElem?_getD, List.getElem?_eq_getElem h]
  rfl

theorem binary_search_loop_sound (l : List String) (t : String)
    (lo hi i : Nat) (hhi : hi ≤ l.length)
    (heq : binary_search_loop l t lo hi = some i) :
    ∃ (h : i < l.length), l.get ⟨i, h⟩ = t := by
  by_cases hlh : lo < hi
  · rw [binary_search_loop, dif_pos hlh] at heq
    cases hcmp : strCmp (l.getD (lo + (hi - lo) / 2) "") t with
    | lt =>
      rw [hcmp] at heq
      exact binary_search_loop_sound l t (lo + (hi - lo) / 2 + 1) hi i hhi heq
    | eq =>
      rw [hcmp] at heq
      have hmi : lo + (hi - lo) / 2 = i := Option.some_inj.mp heq
      have hlt : i < l.length := by omega
      refine ⟨hlt, ?_⟩
      rw [← getD_eq_get_str l i hlt, ← hmi]
      exact (strCmp_eq_eq _ t).mp hcmp
    | gt =>
      rw [hcmp] at heq
      exact binary_search_loop_sound l t lo (lo + (hi - lo) / 2) i (by omega) heq
  · rw [binary_search_loop, dif_neg hlh] at heq
    cases heq
termination_by hi - lo
decreasing_by
  all_goals omega

theorem binary_search_loop_complete (l : List String) (t : String)
    (hsort : List.Sorted (· ≤ ·) l)
    (lo hi j : Nat) (hj : j < l.length)
    (hlo : lo ≤ j) (hhi : j < hi) (hlen : hi ≤ l.length)
    (hget : l.get ⟨j, hj⟩ = t) :
    (binary_search_loop l t lo hi).isSome = true := by
  have hlh : lo < hi := by omega
  rw [binary_search_loop, dif_pos hlh]
  have hmid : lo + (hi - lo) / 2 < l.length := by omega
  cases hcmp : strCmp (l.getD (lo + (hi - lo) / 2) "") t with
  | lt =>
    have hml : l.get ⟨lo + (hi - lo) / 2, hmid⟩ < t := by
      rw [← getD_eq_get_str l _ hmid]
      exact (strCmp_eq_lt _ t).mp hcmp
    have hjm : lo + (hi - lo) / 2 < j := by
      by_contra hc
      push_neg at hc
      have hle : l.get ⟨j, hj⟩ ≤ l.get ⟨lo + (hi - lo) / 2, hmid⟩ :=
        hsort.rel_get_of_le (by exact hc)
      rw [hget] at hle
      exact absurd (lt_of_le_of_lt hle hml) (lt_irrefl t)
    exact binary_search_loop_complete l t hsort (lo + (hi - lo) / 2 + 1) hi j hj
      (by omega) hhi hlen hget
  | eq => rfl
  | gt =>
    have hml : t < l.get ⟨lo + (hi - lo) / 2, hmid⟩ := by
      rw [← getD_eq_get_str l _ hmid]
      exact (strCmp_eq_gt _ t).mp hcmp
    have hjm : j < lo + (hi - lo) / 2 := by
      by_contra hc
      push_neg at hc
      have hle : l.get ⟨lo + (hi - lo) / 2, hmid⟩ ≤ l.get ⟨j, hj⟩ :=
        hsort.rel_get_of_le (by exact hc)
      rw [hget] at hle
      exact absurd (lt_of_lt_of_le hml hle) (lt_irrefl t)
    exact binary_search_loop_complete l t hsort lo (lo + (hi - lo) / 2) j hj
      hlo hjm (by omega) hget
termination_by hi - lo
decreasing_by
  all_goals omega

theorem contains_name_sorted (l : List String) (n : String)
    (hsort : List.Sorted (· ≤ ·) l) :
    contains_name l n = true ↔ n ∈ l := by
  constructor
  · intro h
    rw [contains_name, binary_search] at h
    match hbs : binary_search_loop l n 0 l.length with
    | none => rw [hbs] at h; cases h
    | some i =>
      obtain ⟨hi, hget⟩ := binary_search_loop_sound l n 0 l.length i le_rfl hbs
      rw [← hget]
      exact l.get_mem i hi
  · intro h
    obtain ⟨⟨j, hj⟩, hget⟩ := List.mem_iff_get.mp h
    rw [contains_name, binary_search]
    exact binary_search_loop_complete l n hsort 0 l.length j hj
      (Nat.zero_le j) hj le_rfl hget

theorem new_exclude_sorted (e : Option (List String)) :
    List.Sorted (· ≤ ·) (new_exclude e) := by
  match e with
  | none => exact List.sorted_nil
  | some l => exact List.sorted_insertionSort (· ≤ ·) l

theorem new_exclude_mem (e : Option (List String)) (n : String) :
    n ∈ new_exclude e ↔ n ∈ e.getD [] := by
  match e with
  | none => rw [new_exclude]; rfl
  | some l =>
    rw [new_exclude]
    exact List.mem_insertionSort (· ≤ ·)

/-- C8: exclusion lookup refines naive membership: for every caller-supplied
exclusion list (including the absent one) and every entry basename, the
binary search over the once-sorted list succeeds exactly when the basename
occurs in the original list under exact string equality; in particular an
absent list excludes nothing. -/
theorem claim_C8 :
    (∀ (e : Option (List String)) (n : String),
      contains_name (new_exclude e) n = true ↔ n ∈ e.getD []) ∧
    (∀ n : String, contains_name (new_exclude none) n = false) := by
  have hmain : ∀ (e : Option (List String)) (n : String),
      contains_name (new_exclude e) n = true ↔ n ∈ e.getD [] := by
    intro e n
    rw [contains_name_sorted _ _ (new_exclude_sorted e)]
    exact new_exclude_mem e n
  refine ⟨hmain, ?_⟩
  intro n
  cases hc : contains_name (new_exclude none) n with
  | false => rfl
  | true =>
    have := (hmain none n).mp hc
    simp at this

/-- C2: an entry whose extractable basename occurs in the caller-supplied
exclusion list is skipped entirely by the walker: the walk continues with
the remaining entries from an unchanged state, so nothing at or below the
entry is ever added to the work list and no local directory or file is
created under its mirrored path, whether it is a directory or a file. -/
theorem claim_C2 (env : Env) (exl : List String)
    (path : FsPath) (stat : FileStat) (sub : RemoteDir)
    (rest : List (FsPath × FileStat × RemoteDir)) (ld : FsPath) (s : WalkState)
    (file_name : String)
    (hname : fileName path = some file_name)
    (hmem : file_name ∈ exl) :
    walk_entries env (new_exclude (some exl)) ((path, stat, sub) :: rest) ld s =
      walk_entries env (new_exclude (some exl)) rest ld s := by
  refine walk_entries_cons_excluded env (new_exclude (some exl)) path stat sub
    rest ld s file_name hname ?_
  rw [contains_name_sorted _ _ (new_exclude_sorted (some exl))]
  exact (new_exclude_mem (some exl) file_name).mpr hmem

theorem claim_C2_witness :
    fileName ["r", "skip_me"] = some "skip_me" ∧
    "skip_me" ∈ ["skip_me"] ∧
    walk_entries env_plain (new_exclude (some ["skip_me"]))
        [(["r", "skip_me"], ⟨true, none⟩, .fail)] ["l"] ⟨⟨[], []⟩, []⟩ =
      walk_entries env_plain (new_exclude (some ["skip_me"])) [] ["l"]
        ⟨⟨[], []⟩, []⟩ :=
  ⟨rfl, by decide,
   claim_C2 env_plain ["skip_me"] ["r", "skip_me"] ⟨true, none⟩ .fail []
     ["l"] ⟨⟨[], []⟩, []⟩ "skip_me" rfl (by decide)⟩

/-! ### Error taxonomy of the traversal -/

mutual

theorem find_paths_error_kinds (env : Env) (ex : List String) (t : RemoteDir)
    (ld rd : FsPath) (s : WalkState) (e : SyncError)
    (h : (find_paths env ex t ld rd s).2 = .error e) :
    (∃ p, e = .createDirFailed p) ∨ (∃ p, e = .readdirFailed p) ∨
      (∃ p, e = .localOpenFailed p) := by
  by_cases h1 : env.createDirFails ld
  · rw [find_paths_create_fail env ex t ld rd s h1] at h
    exact Or.inl ⟨ld, (Except.error.injEq _ _).mp h.symm⟩
  · have h1f : env.createDirFails ld = false := by
      revert h1
      cases env.createDirFails ld <;> simp
    match t with
    | .fail =>
      rw [find_paths_fail_listing env ex ld rd s h1f] at h
      exact Or.inr (Or.inl ⟨rd, (Except.error.injEq _ _).mp h.symm⟩)
    | .ok entries =>
      rw [find_paths_ok_listing env ex entries ld rd s h1f] at h
      exact walk_entries_error_kinds env ex entries ld _ e h

theorem walk_entries_error_kinds (env : Env) (ex : List String)
    (entries : List (FsPath × FileStat × RemoteDir)) (ld : FsPath)
    (s : WalkState) (e : SyncError)
    (h : (walk_entries env ex entries ld s).2 = .error e) :
    (∃ p, e = .createDirFailed p) ∨ (∃ p, e = .readdirFailed p) ∨
      (∃ p, e = .localOpenFailed p) := by
  match entries with
  | [] =>
    rw [walk_entries_nil] at h
    cases h
  | (path, stat, sub) :: rest =>
    match hname : fileName path with
    | none =>
      rw [walk_entries_cons_no_name env ex path stat sub rest ld s hname] at h
      exact walk_entries_error_kinds env ex rest ld s e h
    | some file_name =>
      by_cases hex : contains_name ex file_name = true
      · rw [walk_entries_cons_excluded env ex path stat sub rest ld s
          file_name hname hex] at h
        exact walk_entries_error_kinds env ex rest ld s e h
      · have hexf : contains_name ex file_name = false := by
          revert hex
          cases contains_name ex file_name <;> simp
        by_cases hdir : stat.isDir = true
        · rw [walk_entries_cons_dir env ex path stat sub rest ld s
            file_name hname hexf hdir] at h
          match hfp : find_paths env ex sub (ld ++ [file_name]) path s with
          | (s1, .ok u) =>
            rw [hfp] at h
            exact walk_entries_error_kinds env ex rest ld s1 e h
          | (s1, .error e1) =>
            rw [hfp] at h
            have he1 : e1 = e := (Except.error.injEq _ _).mp h
            subst he1
            have := find_paths_error_kinds env ex sub (ld ++ [file_name]) path s e1
            rw [hfp] at this
            exact this rfl
        · have hdirf : stat.isDir = false := by
            revert hdir
            cases stat.isDir <;> simp
          match hsz : stat.size with
          | none =>
            rw [walk_entries_cons_no_size env ex path stat sub rest ld s
              file_name hname hexf hdirf hsz] at h
            exact walk_entries_error_kinds env ex rest ld s e h
          | some remote_size =>
            by_cases hopen : env.openLocalFails (ld ++ [file_name]) = true
            · by_cases hexi : s.fs.existsPath (ld ++ [file_name]) = true
              · rw [walk_entries_cons_open_fail env ex path stat sub rest ld s
                  file_name remote_size hname hexf hdirf hsz hexi hopen] at h
                exact Or.inr (Or.inr ⟨ld ++ [file_name],
                  (Except.error.injEq _ _).mp h.symm⟩)
              · have hexif : s.fs.existsPath (ld ++ [file_name]) = false := by
                  revert hexi
                  cases s.fs.existsPath (ld ++ [file_name]) <;> simp
                rw [walk_entries] at h
                simp only [hname, hexf, Bool.false_eq_true, if_false, hdirf,
                  hsz] at h
                rw [if_pos hexif] at h
                exact walk_entries_error_kinds env ex rest ld _ e h
            · have hopenf : env.openLocalFails (ld ++ [file_name]) = false := by
                revert hopen
                cases env.openLocalFails (ld ++ [file_name]) <;> simp
              rw [walk_entries_cons_file env ex path stat sub rest ld s
                file_name remote_size hname hexf hdirf hsz hopenf] at h
              exact walk_entries_error_kinds env ex rest ld _ e h

end

/-- C3 counterexample: a traversal in which the local root exists, directory
creation and remote listing succeed everywhere, and the entry's name and
size are both obtainable, yet the run aborts fatally because opening the
existing local file for the staleness length check fails (the `?` on
`File::open`/`metadata` at main.rs 135-136).  This is a per-entry condition
other than the three the claim lists, and it is fatal, not skipped. -/
theorem claim_C3_counterexample :
    find_paths
      ⟨fun _ => false, fun p => decide (p = ["l", "c.txt"]), fun _ => false,
       fun _ => .ok [], fun _ => none, fun _ => none⟩
      [] (.ok [(["r", "c.txt"], ⟨false, some 5⟩, .ok [])]) ["l"] ["r"]
      ⟨⟨[["l"]], [(["l", "c.txt"], [1])]⟩, []⟩ =
      (⟨⟨[["l"]], [(["l", "c.txt"], [1])]⟩, []⟩,
       .error (.localOpenFailed ["l", "c.txt"])) := by
  simp +decide [find_paths, walk_entries, fileName, contains_name,
    binary_search, binary_search_loop, LocalFS.existsPath, LocalFS.lengthAt,
    lookupFile, insertDir]

/-- C3 (amended): the fatal conditions of a run are local root missing at
start, local directory creation failure, remote directory listing failure,
and additionally a failure to open or stat an existing local file during
the per-entry staleness check; an unextractable entry name or remote size
is skipped (the walk continues unchanged) and no other per-entry condition
is fatal. -/
theorem claim_C3 :
    (∀ (env : Env) (ex : List String) (t : RemoteDir) (ld rd : FsPath)
        (s : WalkState) (e : SyncError),
      (find_paths env ex t ld rd s).2 = .error e →
      (∃ p, e = .createDirFailed p) ∨ (∃ p, e = .readdirFailed p) ∨
        (∃ p, e = .localOpenFailed p)) ∧
    (∀ (env : Env) (ex : List String) (t : RemoteDir) (ld rd : FsPath)
        (fs : LocalFS) (e : SyncError),
      (sync_local_directory env ex t ld rd fs).result = .error e →
      (∃ p, e = .localRootMissing p) ∨ (∃ p, e = .createDirFailed p) ∨
        (∃ p, e = .readdirFailed p) ∨ (∃ p, e = .localOpenFailed p)) ∧
    (∀ (env : Env) (ex : List String) (path : FsPath) (stat : FileStat)
        (sub : RemoteDir) (rest : List (FsPath × FileStat × RemoteDir))
        (ld : FsPath) (s : WalkState),
      fileName path = none →
      walk_entries env ex ((path, stat, sub) :: rest) ld s =
        walk_entries env ex rest ld s) ∧
    (∀ (env : Env) (ex : List String) (path : FsPath) (stat : FileStat)
        (sub : RemoteDir) (rest : List (FsPath × FileStat × RemoteDir))
        (ld : FsPath) (s : WalkState) (file_name : String),
      fileName path = some file_name →
      contains_name ex file_name = false →
      stat.isDir = false → stat.size = none →
      walk_entries env ex ((path, stat, sub) :: rest) ld s =
        walk_entries env ex rest ld s) := by
  refine ⟨find_paths_error_kinds, ?_, ?_, ?_⟩
  · intro env ex t ld rd fs e h
    by_cases hroot : fs.existsPath ld = false
    · rw [sync_root_missing env ex t ld rd fs hroot] at h
      exact Or.inl ⟨ld, (Except.error.injEq _ _).mp h.symm⟩
    · have hroot2 : fs.existsPath ld = true := by
        revert hroot
        cases fs.existsPath ld <;> simp
      match hfp : find_paths env ex t ld rd ⟨fs, []⟩ with
      | (s1, .ok u) =>
        rw [sync_ok env ex t ld rd fs s1 hroot2 hfp] at h
        cases h
      | (s1, .error e1) =>
        rw [sync_fatal env ex t ld rd fs s1 e1 hroot2 hfp] at h
        have he1 : e1 = e := (Except.error.injEq _ _).mp h
        subst he1
        have := find_paths_error_kinds env ex t ld rd ⟨fs, []⟩ e1
        rw [hfp] at this
        rcases this rfl with h1 | h1 | h1
        · exact Or.inr (Or.inl h1)
        · exact Or.inr (Or.inr (Or.inl h1))
        · exact Or.inr (Or.inr (Or.inr h1))
  · intro env ex path stat sub rest ld s hname
    exact walk_entries_cons_no_name env ex path stat sub rest ld s hname
  · intro env ex path stat sub rest ld s file_name hname hex hdir hsz
    exact walk_entries_cons_no_size env ex path stat sub rest ld s file_name
      hname hex hdir hsz

theorem claim_C3_witness :
    fileName ([] : FsPath) = none ∧
    walk_entries env_plain [] [([], ⟨false, some 5⟩, .ok [])] ["l"]
        ⟨⟨[], []⟩, []⟩ =
      walk_entries env_plain [] [] ["l"] ⟨⟨[], []⟩, []⟩ ∧
    ((∃ p, SyncError.readdirFailed ["r"] = .createDirFailed p) ∨
     (∃ p, SyncError.readdirFailed ["r"] = .readdirFailed p) ∨
     (∃ p, SyncError.readdirFailed ["r"] = .localOpenFailed p)) :=
  ⟨rfl,
   claim_C3.2.2.1 env_plain [] [] ⟨false, some 5⟩ (.ok []) [] ["l"]
     ⟨⟨[], []⟩, []⟩ rfl,
   claim_C3.1 env_plain [] .fail ["l"] ["r"] ⟨⟨[], []⟩, []⟩
     (.readdirFailed ["r"])
     (by rw [find_paths_fail_listing env_plain [] ["l"] ["r"]
         ⟨⟨[], []⟩, []⟩ rfl])⟩

/-- C9: a run never deletes a local file or directory, and the only local
files whose stored content can change are the mirrored destinations of the
pairs in the materialized work list; every other path's content is exactly
what it was before the run (in particular files with no remote counterpart
and files whose byte length matched the remote size, which are never added
to the work list by C1). -/
theorem claim_C9 (env : Env) (ex : List String) (t : RemoteDir)
    (ld rd : FsPath) (fs0 : LocalFS) :
    (∀ p, (lookupFile fs0.files p).isSome = true →
      (lookupFile (sync_local_directory env ex t ld rd fs0).fs.files p).isSome = true) ∧
    (∀ p, p ∉ ((sync_local_directory env ex t ld rd fs0).workList.map Prod.snd) →
      lookupFile (sync_local_directory env ex t ld rd fs0).fs.files p =
        lookupFile fs0.files p) ∧
    (∀ p, p ∈ fs0.dirs → p ∈ (sync_local_directory env ex t ld rd fs0).fs.dirs) := by
  by_cases hroot : fs0.existsPath ld = false
  · rw [sync_root_missing env ex t ld rd fs0 hroot]
    exact ⟨fun p hp => hp, fun p _ => rfl, fun p hp => hp⟩
  · have hroot2 : fs0.existsPath ld = true := by
      revert hroot
      cases fs0.existsPath ld <;> simp
    have hfiles := find_paths_files_eq env ex t ld rd ⟨fs0, []⟩
    have hdirs := find_paths_dirs_mono env ex t ld rd ⟨fs0, []⟩
    match hfp : find_paths env ex t ld rd ⟨fs0, []⟩ with
    | (s1, .error e) =>
      rw [hfp] at hfiles hdirs
      rw [sync_fatal env ex t ld rd fs0 s1 e hroot2 hfp]
      refine ⟨fun p hp => ?_, fun p _ => ?_, fun p hp => hdirs p hp⟩
      · show (lookupFile s1.fs.files p).isSome = true
        rw [hfiles]
        exact hp
      · show lookupFile s1.fs.files p = lookupFile fs0.files p
        rw [hfiles]
    | (s1, .ok u) =>
      rw [hfp] at hfiles hdirs
      rw [sync_ok env ex t ld rd fs0 s1 hroot2 hfp]
      refine ⟨fun p hp => ?_, fun p hp => ?_, fun p hp => ?_⟩
      · show (lookupFile (execute_transfers env s1.out s1.fs).1.files p).isSome = true
        refine execute_transfers_lookup_isSome env s1.out s1.fs p ?_
        rw [hfiles]
        exact hp
      · show lookupFile (execute_transfers env s1.out s1.fs).1.files p =
          lookupFile fs0.files p
        rw [execute_transfers_lookup_untouched env s1.out s1.fs p hp, hfiles]
      · show p ∈ (execute_transfers env s1.out s1.fs).1.dirs
        rw [execute_transfers_dirs]
        exact hdirs p hp

theorem claim_C9_witness :
    (lookupFile (sync_local_directory env_plain [] (.ok []) ["l"] ["r"]
      ⟨[["l"]], [(["l", "old.txt"], [9])]⟩).fs.files ["l", "old.txt"]).isSome = true ∧
    lookupFile (sync_local_directory env_plain [] (.ok []) ["l"] ["r"]
        ⟨[["l"]], [(["l", "old.txt"], [9])]⟩).fs.files ["l", "old.txt"] =
      lookupFile [(["l", "old.txt"], [9])] ["l", "old.txt"] ∧
    ["l"] ∈ (sync_local_directory env_plain [] (.ok []) ["l"] ["r"]
      ⟨[["l"]], [(["l", "old.txt"], [9])]⟩).fs.dirs :=
  ⟨(claim_C9 env_plain [] (.ok []) ["l"] ["r"]
      ⟨[["l"]], [(["l", "old.txt"], [9])]⟩).1 ["l", "old.txt"] (by decide),
   (claim_C9 env_plain [] (.ok []) ["l"] ["r"]
      ⟨[["l"]], [(["l", "old.txt"], [9])]⟩).2.1 ["l", "old.txt"]
     (by simp +decide [sync_local_directory, find_paths, walk_entries,
       LocalFS.existsPath, lookupFile, insertDir, execute_transfers]),
   (claim_C9 env_plain [] (.ok []) ["l"] ["r"]
      ⟨[["l"]], [(["l", "old.txt"], [9])]⟩).2.2 ["l"] (by decide)⟩

/-! ### Idempotence infrastructure -/

theorem insertDir_eq_of_mem (dirs : List FsPath) (p : FsPath) (h : p ∈ dirs) :
    insertDir dirs p = dirs := by
  rw [insertDir, if_pos h]

theorem mirrored_files_fail (env : Env) (ex : List String) (ld : FsPath) :
    mirrored_files env ex .fail ld = [] := by
  rw [mirrored_files]

theorem mirrored_files_ok (env : Env) (ex : List String)
    (entries : List (FsPath × FileStat × RemoteDir)) (ld : FsPath) :
    mirrored_files env ex (.ok entries) ld =
      mirrored_files_entries env ex entries ld := by
  rw [mirrored_files]

theorem mirrored_files_entries_nil (env : Env) (ex : List String) (ld : FsPath) :
    mirrored_files_entries env ex [] ld = [] := by
  rw [mirrored_files_entries]

theorem mirrored_files_entries_no_name (env : Env) (ex : List String)
    (path : FsPath) (stat : FileStat) (sub : RemoteDir)
    (rest : List (FsPath × FileStat × RemoteDir)) (ld : FsPath)
    (hname : fileName path = none) :
    mirrored_files_entries env ex ((path, stat, sub) :: rest) ld =
      mirrored_files_entries env ex rest ld := by
  rw [mirrored_files_entries]
  simp only [hname]

theorem mirrored_files_entries_excluded (env : Env) (ex : List String)
    (path : FsPath) (stat : FileStat) (sub : RemoteDir)
    (rest : List (FsPath × FileStat × RemoteDir)) (ld : FsPath)
    (file_name : String)
    (hname : fileName path = some file_name)
    (hex : contains_name ex file_name = true) :
    mirrored_files_entries env ex ((path, stat, sub) :: rest) ld =
      mirrored_files_entries env ex rest ld := by
  rw [mirrored_files_entries]
  simp only [hname, hex, if_true]

theorem mirrored_files_entries_dir (env : Env) (ex : List String)
    (path : FsPath) (stat : FileStat) (sub : RemoteDir)
    (rest : List (FsPath × FileStat × RemoteDir)) (ld : FsPath)
    (file_name : String)
    (hname : fileName path = some file_name)
    (hex : contains_name ex file_name = false)
    (hdir : stat.isDir = true) :
    mirrored_files_entries env ex ((path, stat, sub) :: rest) ld =
      mirrored_files env ex sub (ld ++ [file_name]) ++
        mirrored_files_entries env ex rest ld := by
  rw [mirrored_files_entries]
  simp only [hname, hex, Bool.false_eq_true, if_false, hdir, if_true]

theorem mirrored_files_entries_no_size (env : Env) (ex : List String)
    (path : FsPath) (stat : FileStat) (sub : RemoteDir)
    (rest : List (FsPath × FileStat × RemoteDir)) (ld : FsPath)
    (file_name : String)
    (hname : fileName path = some file_name)
    (hex : contains_name ex file_name = false)
    (hdir : stat.isDir = false)
    (hsz : stat.size = none) :
    mirrored_files_entries env ex ((path, stat, sub) :: rest) ld =
      mirrored_files_entries env ex rest ld := by
  rw [mirrored_files_entries]
  simp only [hname, hex, Bool.false_eq_true, if_false, hdir, hsz]

theorem mirrored_files_entries_file (env : Env) (ex : List String)
    (path : FsPath) (stat : FileStat) (sub : RemoteDir)
    (rest : List (FsPath × FileStat × RemoteDir)) (ld : FsPath)
    (file_name : String) (remote_size : Nat)
    (hname : fileName path = some file_name)
    (hex : contains_name ex file_name = false)
    (hdir : stat.isDir = false)
    (hsz : stat.size = some remote_size) :
    mirrored_files_entries env ex ((path, stat, sub) :: rest) ld =
      (path, ld ++ [file_name], remote_size) ::
        mirrored_files_entries env ex rest ld := by
  rw [mirrored_files_entries]
  simp only [hname, hex, Bool.false_eq_true, if_false, hdir, hsz]

theorem existsPath_lift (fs fs2 : LocalFS) (p : FsPath)
    (hfiles : fs2.files = fs.files)
    (hdirs : ∀ q ∈ fs.dirs, q ∈ fs2.dirs)
    (h : fs.existsPath p = true) :
    fs2.existsPath p = true := by
  rw [LocalFS.existsPath] at h ⊢
  rw [hfiles]
  rcases Bool.or_eq_true_iff.mp h with h1 | h1
  · exact Bool.or_eq_true_iff.mpr (Or.inl (by
      exact decide_eq_true (hdirs p (of_decide_eq_true h1))))
  · exact Bool.or_eq_true_iff.mpr (Or.inr h1)

mutual

theorem find_paths_char (env : Env) (ex : List String) (t : RemoteDir)
    (ld rd : FsPath) (s0 s1 : WalkState)
    (hcd : ∀ p, env.createDirFails p = false)
    (hol : ∀ p, env.openLocalFails p = false)
    (hrun : find_paths env ex t ld rd s0 = (s1, .ok ())) :
    ∃ new, s1.out = s0.out ++ new ∧
      new.Sublist ((mirrored_files env ex t ld).map (fun e => (e.1, e.2.1))) ∧
      ∀ e ∈ mirrored_files env ex t ld,
        (e.1, e.2.1) ∈ new ∨
        (s1.fs.existsPath e.2.1 = true ∧ s1.fs.lengthAt e.2.1 = e.2.2) := by
  match t with
  | .fail =>
    rw [find_paths_fail_listing env ex ld rd s0 (hcd ld)] at hrun
    simp at hrun
  | .ok entries =>
    rw [find_paths_ok_listing env ex entries ld rd s0 (hcd ld)] at hrun
    rw [mirrored_files_ok]
    exact walk_entries_char env ex entries ld
      { s0 with fs := { s0.fs with dirs := insertDir s0.fs.dirs ld } } s1
      hcd hol hrun

theorem walk_entries_char (env : Env) (ex : List String)
    (entries : List (FsPath × FileStat × RemoteDir)) (ld : FsPath)
    (s0 s1 : WalkState)
    (hcd : ∀ p, env.createDirFails p = false)
    (hol : ∀ p, env.openLocalFails p = false)
    (hrun : walk_entries env ex entries ld s0 = (s1, .ok ())) :
    ∃ new, s1.out = s0.out ++ new ∧
      new.Sublist ((mirrored_files_entries env ex entries ld).map
        (fun e => (e.1, e.2.1))) ∧
      ∀ e ∈ mirrored_files_entries env ex entries ld,
        (e.1, e.2.1) ∈ new ∨
        (s1.fs.existsPath e.2.1 = true ∧ s1.fs.lengthAt e.2.1 = e.2.2) := by
  match entries with
  | [] =>
    rw [walk_entries_nil] at hrun
    have hs : s0 = s1 := congrArg Prod.fst hrun
    subst hs
    rw [mirrored_files_entries_nil]
    exact ⟨[], (List.append_nil _).symm, List.nil_sublist _, by simp⟩
  | (path, stat, sub) :: rest =>
    match hname : fileName path with
    | none =>
      rw [walk_entries_cons_no_name env ex path stat sub rest ld s0 hname] at hrun
      rw [mirrored_files_entries_no_name env ex path stat sub rest ld hname]
      exact walk_entries_char env ex rest ld s0 s1 hcd hol hrun
    | some fn =>
      by_cases hex : contains_name ex fn = true
      · rw [walk_entries_cons_excluded env ex path stat sub rest ld s0 fn
          hname hex] at hrun
        rw [mirrored_files_entries_excluded env ex path stat sub rest ld fn
          hname hex]
        exact walk_entries_char env ex rest ld s0 s1 hcd hol hrun
      · have hexf : contains_name ex fn = false := by
          revert hex
          cases contains_name ex fn <;> simp
        by_cases hdir : stat.isDir = true
        · rw [walk_entries_cons_dir env ex path stat sub rest ld s0 fn
            hname hexf hdir] at hrun
          rw [mirrored_files_entries_dir env ex path stat sub rest ld fn
            hname hexf hdir]
          match hfp1 : find_paths env ex sub (ld ++ [fn]) path s0 with
          | (sm, .error e) =>
            rw [hfp1] at hrun
            simp at hrun
          | (sm, .ok u) =>
            rw [hfp1] at hrun
            have hrun3 : walk_entries env ex rest ld sm = (s1, .ok ()) := hrun
            have hsub := find_paths_char env ex sub (ld ++ [fn]) path s0 sm
              hcd hol hfp1
            have hrest := walk_entries_char env ex rest ld sm s1 hcd hol hrun3
            obtain ⟨n1, ho1, hs1, hd1⟩ := hsub
            obtain ⟨n2, ho2, hs2, hd2⟩ := hrest
            refine ⟨n1 ++ n2, ?_, ?_, ?_⟩
            · rw [ho2, ho1, List.append_assoc]
            · rw [List.map_append]
              exact hs1.append hs2
            · intro e he
              rcases List.mem_append.mp he with he1 | he2
              · rcases hd1 e he1 with hmem | ⟨hex1, hlen1⟩
                · exact Or.inl (List.mem_append.mpr (Or.inl hmem))
                · right
                  have hfe : s1.fs.files = sm.fs.files := by
                    have hh := walk_entries_files_eq env ex rest ld sm
                    rw [hrun3] at hh
                    exact hh
                  have hdm : ∀ q ∈ sm.fs.dirs, q ∈ s1.fs.dirs := by
                    intro q hq
                    have hh := walk_entries_dirs_mono env ex rest ld sm q hq
                    rw [hrun3] at hh
                    exact hh
                  refine ⟨existsPath_lift sm.fs s1.fs e.2.1 hfe hdm hex1, ?_⟩
                  show ((lookupFile s1.fs.files e.2.1).getD []).length = e.2.2
                  rw [hfe]
                  exact hlen1
              · rcases hd2 e he2 with hmem | hcond
                · exact Or.inl (List.mem_append.mpr (Or.inr hmem))
                · exact Or.inr hcond
        · have hdirf : stat.isDir = false := by
            revert hdir
            cases stat.isDir <;> simp
          match hsz : stat.size with
          | none =>
            rw [walk_entries_cons_no_size env ex path stat sub rest ld s0 fn
              hname hexf hdirf hsz] at hrun
            rw [mirrored_files_entries_no_size env ex path stat sub rest ld fn
              hname hexf hdirf hsz]
            exact walk_entries_char env ex rest ld s0 s1 hcd hol hrun
          | some rsz =>
            rw [walk_entries_cons_file env ex path stat sub rest ld s0 fn rsz
              hname hexf hdirf hsz (hol (ld ++ [fn]))] at hrun
            rw [mirrored_files_entries_file env ex path stat sub rest ld fn rsz
              hname hexf hdirf hsz]
            by_cases hc : (s0.fs.existsPath (ld ++ [fn]) = false ∨
                s0.fs.lengthAt (ld ++ [fn]) ≠ rsz)
            · rw [if_pos hc] at hrun
              have hrest := walk_entries_char env ex rest ld
                { s0 with out := s0.out ++ [(path, ld ++ [fn])] } s1 hcd hol hrun
              obtain ⟨n2, ho2, hs2, hd2⟩ := hrest
              refine ⟨(path, ld ++ [fn]) :: n2, ?_, ?_, ?_⟩
              · rw [ho2]
                show s0.out ++ [(path, ld ++ [fn])] ++ n2 =
                  s0.out ++ (path, ld ++ [fn]) :: n2
                rw [List.append_assoc, List.singleton_append]
              · rw [List.map_cons]
                exact hs2.cons₂ _
              · intro e he
                rcases List.mem_cons.mp he with rfl | he2
                · exact Or.inl (List.mem_cons_self _ _)
                · rcases hd2 e he2 with hmem | hcond
                  · exact Or.inl (List.mem_cons_of_mem _ hmem)
                  · exact Or.inr hcond
            · rw [if_neg hc] at hrun
              push_neg at hc
              have hext : s0.fs.existsPath (ld ++ [fn]) = true := by
                rcases hc with ⟨h1, _⟩
                revert h1
                cases s0.fs.existsPath (ld ++ [fn]) <;> simp
              have hlen0 : s0.fs.lengthAt (ld ++ [fn]) = rsz := hc.2
              have hrun2 : walk_entries env ex rest ld s0 = (s1, .ok ()) := by
                have hh : ({ s0 with out := s0.out ++ [] } : WalkState) = s0 := by
                  rw [List.append_nil]
                rw [hh] at hrun
                exact hrun
              have hrest := walk_entries_char env ex rest ld s0 s1 hcd hol hrun2
              obtain ⟨n2, ho2, hs2, hd2⟩ := hrest
              refine ⟨n2, ho2, ?_, ?_⟩
              · rw [List.map_cons]
                exact hs2.cons _
              · intro e he
                rcases List.mem_cons.mp he with rfl | he2
                · right
                  have hfe : s1.fs.files = s0.fs.files := by
                    have hh := walk_entries_files_eq env ex rest ld s0
                    rw [hrun2] at hh
                    exact hh
                  have hdm : ∀ q ∈ s0.fs.dirs, q ∈ s1.fs.dirs := by
                    intro q hq
                    have hh := walk_entries_dirs_mono env ex rest ld s0 q hq
                    rw [hrun2] at hh
                    exact hh
                  refine ⟨existsPath_lift s0.fs s1.fs _ hfe hdm hext, ?_⟩
                  show ((lookupFile s1.fs.files _).getD []).length = rsz
                  rw [hfe]
                  exact hlen0
                · rcases hd2 e he2 with hmem | hcond
                  · exact Or.inl hmem
                  · exact Or.inr hcond

end

mutual

theorem find_paths_noop (env : Env) (ex : List String) (t : RemoteDir)
    (ld rd : FsPath) (s0 s0' s : WalkState)
    (hcd : ∀ p, env.createDirFails p = false)
    (hol : ∀ p, env.openLocalFails p = false)
    (hrun1 : find_paths env ex t ld rd s0 = (s0', .ok ()))
    (hdirs : ∀ p ∈ s0'.fs.dirs, p ∈ s.fs.dirs)
    (hupd : ∀ e ∈ mirrored_files env ex t ld,
      s.fs.existsPath e.2.1 = true ∧ s.fs.lengthAt e.2.1 = e.2.2) :
    find_paths env ex t ld rd s = (s, .ok ()) := by
  match t with
  | .fail =>
    rw [find_paths_fail_listing env ex ld rd s0 (hcd ld)] at hrun1
    simp at hrun1
  | .ok entries =>
    rw [find_paths_ok_listing env ex entries ld rd s0 (hcd ld)] at hrun1
    rw [mirrored_files_ok] at hupd
    have hld : ld ∈ s.fs.dirs := by
      refine hdirs ld ?_
      have hin : ld ∈ insertDir s0.fs.dirs ld := mem_insertDir_self s0.fs.dirs ld
      have hh := walk_entries_dirs_mono env ex entries ld
        { s0 with fs := { s0.fs with dirs := insertDir s0.fs.dirs ld } } ld hin
      rw [hrun1] at hh
      exact hh
    rw [find_paths_ok_listing env ex entries ld rd s (hcd ld)]
    rw [insertDir_eq_of_mem s.fs.dirs ld hld]
    show walk_entries env ex entries ld s = (s, .ok ())
    exact walk_entries_noop env ex entries ld _ s0' s hcd hol hrun1 hdirs hupd

theorem walk_entries_noop (env : Env) (ex : List String)
    (entries : List (FsPath × FileStat × RemoteDir)) (ld : FsPath)
    (s0 s0' s : WalkState)
    (hcd : ∀ p, env.createDirFails p = false)
    (hol : ∀ p, env.openLocalFails p = false)
    (hrun1 : walk_entries env ex entries ld s0 = (s0', .ok ()))
    (hdirs : ∀ p ∈ s0'.fs.dirs, p ∈ s.fs.dirs)
    (hupd : ∀ e ∈ mirrored_files_entries env ex entries ld,
      s.fs.existsPath e.2.1 = true ∧ s.fs.lengthAt e.2.1 = e.2.2) :
    walk_entries env ex entries ld s = (s, .ok ()) := by
  match entries with
  | [] => rw [walk_entries_nil]
  | (path, stat, sub) :: rest =>
    match hname : fileName path with
    | none =>
      rw [walk_entries_cons_no_name env ex path stat sub rest ld s0 hname] at hrun1
      rw [mirrored_files_entries_no_name env ex path stat sub rest ld hname] at hupd
      rw [walk_entries_cons_no_name env ex path stat sub rest ld s hname]
      exact walk_entries_noop env ex rest ld s0 s0' s hcd hol hrun1 hdirs hupd
    | some fn =>
      by_cases hex : contains_name ex fn = true
      · rw [walk_entries_cons_excluded env ex path stat sub rest ld s0 fn
          hname hex] at hrun1
        rw [mirrored_files_entries_excluded env ex path stat sub rest ld fn
          hname hex] at hupd
        rw [walk_entries_cons_excluded env ex path stat sub rest ld s fn
          hname hex]
        exact walk_entries_noop env ex rest ld s0 s0' s hcd hol hrun1 hdirs hupd
      · have hexf : contains_name ex fn = false := by
          revert hex
          cases contains_name ex fn <;> simp
        by_cases hdir : stat.isDir = true
        · rw [walk_entries_cons_dir env ex path stat sub rest ld s0 fn
            hname hexf hdir] at hrun1
          rw [mirrored_files_entries_dir env ex path stat sub rest ld fn
            hname hexf hdir] at hupd
          rw [walk_entries_cons_dir env ex path stat sub rest ld s fn
            hname hexf hdir]
          match hfp1 : find_paths env ex sub (ld ++ [fn]) path s0 with
          | (sm, .error e) =>
            rw [hfp1] at hrun1
            simp at hrun1
          | (sm, .ok u) =>
            rw [hfp1] at hrun1
            have hrun1b : walk_entries env ex rest ld sm = (s0', .ok ()) := hrun1
            have hdm : ∀ p ∈ sm.fs.dirs, p ∈ s.fs.dirs := by
              intro p hp
              refine hdirs p ?_
              have hh := walk_entries_dirs_mono env ex rest ld sm p hp
              rw [hrun1b] at hh
              exact hh
            have hsub := find_paths_noop env ex sub (ld ++ [fn]) path s0 sm s
              hcd hol hfp1 hdm
              (fun e he => hupd e (List.mem_append.mpr (Or.inl he)))
            rw [hsub]
            show walk_entries env ex rest ld s = (s, .ok ())
            exact walk_entries_noop env ex rest ld sm s0' s hcd hol hrun1b hdirs
              (fun e he => hupd e (List.mem_append.mpr (Or.inr he)))
        · have hdirf : stat.isDir = false := by
            revert hdir
            cases stat.isDir <;> simp
          match hsz : stat.size with
          | none =>
            rw [walk_entries_cons_no_size env ex path stat sub rest ld s0 fn
              hname hexf hdirf hsz] at hrun1
            rw [mirrored_files_entries_no_size env ex path stat sub rest ld fn
              hname hexf hdirf hsz] at hupd
            rw [walk_entries_cons_no_size env ex path stat sub rest ld s fn
              hname hexf hdirf hsz]
            exact walk_entries_noop env ex rest ld s0 s0' s hcd hol hrun1 hdirs hupd
          | some rsz =>
            rw [walk_entries_cons_file env ex path stat sub rest ld s0 fn rsz
              hname hexf hdirf hsz (hol (ld ++ [fn]))] at hrun1
            rw [mirrored_files_entries_file env ex path stat sub rest ld fn rsz
              hname hexf hdirf hsz] at hupd
            have hhead := hupd (path, ld ++ [fn], rsz) (List.mem_cons_self _ _)
            have hc : ¬ (s.fs.existsPath (ld ++ [fn]) = false ∨
                s.fs.lengthAt (ld ++ [fn]) ≠ rsz) := by
              push_neg
              refine ⟨?_, ?_⟩
              · rw [hhead.1]
                simp
              · exact hhead.2
            rw [walk_entries_cons_file env ex path stat sub rest ld s fn rsz
              hname hexf hdirf hsz (hol (ld ++ [fn]))]
            rw [if_neg hc, List.append_nil]
            show walk_entries env ex rest ld s = (s, .ok ())
            exact walk_entries_noop env ex rest ld _ s0' s hcd hol hrun1 hdirs
              (fun e he => hupd e (List.mem_cons_of_mem _ he))

end

/-- C7: idempotence.  If a run succeeds, every local host operation succeeds,
the remote tree is unchanged between the two runs with every reachable file's
reported size agreeing with its actual stream, and the mirrored local
destinations of the reachable files are pairwise distinct (as on a real
filesystem, where a directory cannot list one name twice), then running the
sync again from the filesystem state the first run left behind produces an
empty work list. -/
theorem claim_C7 (env : Env) (ex : List String) (t : RemoteDir)
    (ld rd : FsPath) (fs0 : LocalFS)
    (hok : (sync_local_directory env ex t ld rd fs0).result = .ok ())
    (hcd : ∀ p, env.createDirFails p = false)
    (hol : ∀ p, env.openLocalFails p = false)
    (hcf : ∀ p, env.createFileFails p = false)
    (hrf : ∀ p, env.readFailAt p = none)
    (hwf : ∀ p, env.writeFailAt p = none)
    (hsz : ∀ e ∈ mirrored_files env ex t ld, size_consistent env e)
    (hnd : ((mirrored_files env ex t ld).map (fun e => e.2.1)).Nodup) :
    (sync_local_directory env ex t ld rd
      (sync_local_directory env ex t ld rd fs0).fs).workList = [] := by
  by_cases hroot : fs0.existsPath ld = false
  · rw [sync_root_missing env ex t ld rd fs0 hroot] at hok
    simp at hok
  · have hroot2 : fs0.existsPath ld = true := by
      revert hroot
      cases fs0.existsPath ld <;> simp
    match hfp : find_paths env ex t ld rd ⟨fs0, []⟩ with
    | (s1, .error e) =>
      rw [sync_fatal env ex t ld rd fs0 s1 e hroot2 hfp] at hok
      simp at hok
    | (s1, .ok u) =>
      have hfp2 : find_paths env ex t ld rd ⟨fs0, []⟩ = (s1, .ok ()) := hfp
      obtain ⟨new, hout, hsub, hdisj⟩ :=
        find_paths_char env ex t ld rd ⟨fs0, []⟩ s1 hcd hol hfp2
      have hout2 : s1.out = new := by simpa using hout
      have hfiles1 : s1.fs.files = fs0.files := by
        have hh := find_paths_files_eq env ex t ld rd ⟨fs0, []⟩
        rw [hfp2] at hh
        exact hh
      have hdirs1 : ∀ p ∈ fs0.dirs, p ∈ s1.fs.dirs := by
        intro p hp
        have hh := find_paths_dirs_mono env ex t ld rd ⟨fs0, []⟩ p hp
        rw [hfp2] at hh
        exact hh
      have hmapnd : (s1.out.map Prod.snd).Nodup := by
        rw [hout2]
        have h1 := hsub.map Prod.snd
        rw [List.map_map] at h1
        exact List.Nodup.sublist h1 hnd
      have hupd : ∀ e ∈ mirrored_files env ex t ld,
          (execute_transfers env s1.out s1.fs).1.existsPath e.2.1 = true ∧
          (execute_transfers env s1.out s1.fs).1.lengthAt e.2.1 = e.2.2 := by
        intro e he
        by_cases hin : (e.1, e.2.1) ∈ s1.out
        · have hszc := hsz e he
          cases hro : env.remoteOpen e.1 with
          | error er =>
            rw [size_consistent, hro] at hszc
            exact absurd hszc (by simp)
          | ok c =>
            rw [size_consistent, hro] at hszc
            have hlook := execute_transfers_lookup_written env s1.out s1.fs
              e.1 e.2.1 c hmapnd hin hcf hrf hwf hro
            constructor
            · rw [LocalFS.existsPath]
              apply Bool.or_eq_true_iff.mpr
              right
              rw [hlook]
              rfl
            · rw [LocalFS.lengthAt, hlook]
              exact hszc
        · have hnotdest : e.2.1 ∉ s1.out.map Prod.snd := by
            intro hmm
            obtain ⟨q, hq, hq2⟩ := List.mem_map.mp hmm
            have hq3 : q ∈ (mirrored_files env ex t ld).map
                (fun e2 => (e2.1, e2.2.1)) :=
              hsub.subset (hout2 ▸ hq)
            obtain ⟨e2, he2, hq4⟩ := List.mem_map.mp hq3
            have heq : e2 = e := by
              refine List.inj_on_of_nodup_map hnd he2 he ?_
              show e2.2.1 = e.2.1
              rw [← hq2]
              exact congrArg Prod.snd hq4
            apply hin
            rw [heq] at hq4
            have hq5 : (e.1, e.2.1) = q := hq4
            rw [hq5]
            exact hq
          have hlook := execute_transfers_lookup_untouched env s1.out s1.fs
            e.2.1 hnotdest
          rcases hdisj e he with hmem | ⟨hex1, hlen1⟩
          · exact absurd (hout2 ▸ hmem) hin
          · constructor
            · rw [LocalFS.existsPath] at hex1 ⊢
              rw [execute_transfers_dirs, hlook]
              exact hex1
            · rw [LocalFS.lengthAt] at hlen1 ⊢
              rw [hlook]
              exact hlen1
      have hdirs2 : ∀ p ∈ s1.fs.dirs,
          p ∈ (execute_transfers env s1.out s1.fs).1.dirs := by
        intro p hp
        rw [execute_transfers_dirs]
        exact hp
      have hnoop := find_paths_noop env ex t ld rd ⟨fs0, []⟩ s1
        ⟨(execute_transfers env s1.out s1.fs).1, []⟩ hcd hol hfp2 hdirs2 hupd
      have hroot3 : (execute_transfers env s1.out s1.fs).1.existsPath ld = true := by
        rw [LocalFS.existsPath] at hroot2 ⊢
        rcases Bool.or_eq_true_iff.mp hroot2 with h1 | h1
        · apply Bool.or_eq_true_iff.mpr
          left
          rw [execute_transfers_dirs]
          exact decide_eq_true (hdirs1 ld (of_decide_eq_true h1))
        · apply Bool.or_eq_true_iff.mpr
          right
          exact execute_transfers_lookup_isSome env s1.out s1.fs ld
            (by rw [hfiles1]; exact h1)
      rw [sync_ok env ex t ld rd fs0 s1 hroot2 hfp2]
      show (sync_local_directory env ex t ld rd
        (execute_transfers env s1.out s1.fs).1).workList = []
      rw [sync_ok env ex t ld rd (execute_transfers env s1.out s1.fs).1
        ⟨(execute_transfers env s1.out s1.fs).1, []⟩ hroot3 hnoop]

theorem claim_C7_witness :
    (sync_local_directory env_c7 [] tree_c7 ["l"] ["r"]
      (sync_local_directory env_c7 [] tree_c7 ["l"] ["r"] ⟨[["l"]], []⟩).fs).workList = [] := by
  have hexf : contains_name [] "a.txt" = false := by
    simp [contains_name, binary_search, binary_search_loop]
  have hfpW : find_paths env_c7 [] tree_c7 ["l"] ["r"] ⟨⟨[["l"]], []⟩, []⟩ =
      (⟨⟨[["l"]], []⟩, [(["r", "a.txt"], ["l", "a.txt"])]⟩, .ok ()) := by
    simp +decide [env_c7, tree_c7, find_paths, walk_entries, fileName,
      contains_name, binary_search, binary_search_loop, LocalFS.existsPath,
      LocalFS.lengthAt, lookupFile, insertDir]
  have hmir : mirrored_files env_c7 [] tree_c7 ["l"] =
      [(["r", "a.txt"], ["l", "a.txt"], 1)] := by
    rw [tree_c7, mirrored_files_ok,
      mirrored_files_entries_file env_c7 [] ["r", "a.txt"] ⟨false, some 1⟩
        (.ok []) [] ["l"] "a.txt" 1 rfl hexf rfl rfl,
      mirrored_files_entries_nil]
    rfl
  refine claim_C7 env_c7 [] tree_c7 ["l"] ["r"] ⟨[["l"]], []⟩ ?_
    (fun p => rfl) (fun p => rfl) (fun p => rfl) (fun p => rfl) (fun p => rfl)
    ?_ ?_
  · rw [sync_ok env_c7 [] tree_c7 ["l"] ["r"] ⟨[["l"]], []⟩
      ⟨⟨[["l"]], []⟩, [(["r", "a.txt"], ["l", "a.txt"])]⟩ (by decide) hfpW]
  · intro e he
    rw [hmir, List.mem_singleton] at he
    subst he
    simp [size_consistent, env_c7]
  · rw [hmir]
    simp
